import Mathlib

/-!
Verification of the dtcc-data spatial tile distribution service.

This file shallowly embeds the core operations of the repository:

* `binary_search_within_range`, `find_tiles`, `find_files`
  (src/dtcc_data/atlas/prototype.py),
* `files_to_send` (src/dtcc_data/atlas/checker.py),
* `update_laz_atlas` / `update_gpkg_atlas` (src/dtcc_data/atlas/utils.py),
* the merged server's `bboxes_intersect`, `get_lidar_tiles`, token handling,
  auth middleware, access-request throttling and persistence
  (src/server-lidar-gpkg-ssh-merged.py),

and proves or refutes the frozen claims C1..C10 about them.

Numeric convention: the Python code manipulates numbers (ints and floats
holding integral values in every atlas, test and configuration default) using
only addition, subtraction and order comparison, so all coordinates and
timestamps are embedded as `Int`; the control flow of every embedded function
is the literal translation of the source.  Python dictionaries are embedded
as association lists (insertion ordered, unique keys), `str` as `String`.
-/

set_option maxHeartbeats 1000000

/-! ### Binary search (src/dtcc_data/atlas/prototype.py, binary_search_within_range)

The Python `while low <= high` loop is embedded with an explicit fuel
argument (structural recursion); `arr.length + 1` fuel always suffices
because the interval `[low, high]` shrinks in every iteration.  `low` and
`high` are `Int` exactly as in the source (`high` starts at `len(arr) - 1`,
which is `-1` on an empty list), `mid = (low + high) / 2` is floor division
exactly as Python's `//` (both arguments stay nonnegative whenever the loop
body runs).  Out-of-range indexing cannot happen while the invariants of the
loop hold; `getD _ 0` is used for totality. -/

def bswrGo (arr : List Int) (low_bound high_bound : Int) :
    Nat → Int → Int → Option Nat
  | 0, _, _ => none
  | fuel + 1, low, high =>
    if low ≤ high then
      let mid := (low + high) / 2
      let current_value := arr.getD mid.toNat 0
      if low_bound ≤ current_value ∧ current_value ≤ high_bound then
        if mid = 0 ∨ arr.getD (mid - 1).toNat 0 < low_bound then
          some mid.toNat
        else
          bswrGo arr low_bound high_bound fuel low (mid - 1)
      else if current_value < low_bound then
        bswrGo arr low_bound high_bound fuel (mid + 1) high
      else
        bswrGo arr low_bound high_bound fuel low (mid - 1)
    else none

def binary_search_within_range (arr : List Int) (low_bound high_bound : Int) :
    Option Nat :=
  bswrGo arr low_bound high_bound (arr.length + 1) 0 ((arr.length : Int) - 1)

/-- `j` indexes an element of `arr` lying within `[lb, hb]`. -/
def inSeekRange (arr : List Int) (lb hb : Int) (j : Nat) : Prop :=
  lb ≤ arr.getD j 0 ∧ arr.getD j 0 ≤ hb

/-! ### Rectangle intersection (src/server-lidar-gpkg-ssh-merged.py, bboxes_intersect)

`bboxes_intersect(a..., b...) = not (axmax < bxmin or axmin > bxmax or
aymax < bymin or aymin > bymax)` — the closed intersection predicate.  The
same closed rectangle-overlap test is what `geopandas`' `intersects` computes
on the two axis-aligned rectangles built in `find_files` (for tiles with
nonnegative extents), so the client-side precise filter is embedded with the
same function. -/

def bboxes_intersect (axmin aymin axmax aymax bxmin bymin bxmax bymax : Int) : Bool :=
  !(decide (axmax < bxmin) || decide (axmin > bxmax) ||
    decide (aymax < bymin) || decide (aymin > bymax))

/-! ### Client atlas query (src/dtcc_data/atlas/prototype.py, find_tiles / find_files)

The atlas is the two-level JSON mapping `xmin → (ymin → tile)`; Python dicts
are embedded as association lists in key order (they are written sorted and
have unique keys).  `find_tiles` iterates x-keys from the binary-search seek
and, per x-key, y-keys from a y-seek; both `while` loops advance an index
with a `try/except IndexError: break`, embedded as structural recursion over
the remaining suffix of the key list.  Two quirks of the source are kept
faithfully: `previous_max` is computed from the tile **width** (not height),
and a failed y-seek executes `return []`, discarding tiles collected for
earlier x-keys (the `Option` result: `none` models that abort).  (At runtime
this `return []` path would actually raise `UnboundLocalError` because the
local variable `info` shadows the imported `info` logger; either way no tile
list is produced, and the model returns the literal `[]` the source spells.)
`int(y_data[0])` on an empty inner dict would raise in Python; inner dicts
of real atlases are never empty and the model totalises it with `headD 0`. -/

structure TileInfo where
  width : Int
  height : Int
  filename : String
deriving DecidableEq

structure FoundTile where
  x : Int
  y : Int
  width : Int
  height : Int
  filename : String
deriving DecidableEq

abbrev ClientAtlas := List (Int × List (Int × TileInfo))

def ftInnerGo (xk : Int) (b3 pad : Int) : Int → List (Int × TileInfo) → List FoundTile
  | _, [] => []
  | previous_max, (yk, info) :: rest =>
    if yk ≤ b3 + pad ∧ previous_max < b3 + pad then
      ⟨xk, yk, info.width, info.height, info.filename⟩ ::
        ftInnerGo xk b3 pad (info.width + yk) rest
    else []

/-- The y-seek of `find_tiles`: the binary search plus the
`if not index_y and bounds[1] <= int(y_data[0]): index_y = 0` adjustment
(Python's `not index_y` is true both for `None` and for index `0`). -/
def ftSeekY (b1 pad : Int) (ydict : List (Int × TileInfo)) : Option Nat :=
  let y_data := ydict.map Prod.fst
  let iy0 := binary_search_within_range y_data (b1 - pad) b1
  if (iy0 = none ∨ iy0 = some 0) ∧ b1 ≤ y_data.headD 0 then some 0 else iy0

/-- The x-seek of `find_tiles`: binary search plus the
`if not index_x and bounds[0] < int(x_data[0]): index_x = 0` adjustment. -/
def ftSeekX (b0 pad : Int) (x_data : List Int) : Option Nat :=
  let ix0 := binary_search_within_range x_data (b0 - pad) b0
  if (ix0 = none ∨ ix0 = some 0) ∧ b0 < x_data.headD 0 then some 0 else ix0

def ftOuterGo (b1 b2 b3 pad : Int) :
    List (Int × List (Int × TileInfo)) → Option (List FoundTile)
  | [] => some []
  | (xk, ydict) :: rest =>
    if xk ≤ b2 + pad then
      match ftSeekY b1 pad ydict with
      | none => none
      | some index_y =>
        match ftOuterGo b1 b2 b3 pad rest with
        | none => none
        | some more => some (ftInnerGo xk b3 pad 0 (ydict.drop index_y) ++ more)
    else some []

def find_tiles (data : ClientAtlas) (b0 b1 b2 b3 : Int) : List FoundTile :=
  if data = [] then []
  else
    match ftSeekX b0 20000 (data.map Prod.fst) with
    | none => []
    | some index_x => (ftOuterGo b1 b2 b3 20000 (data.drop index_x)).getD []

/-- Result of the `hardcoded_bounds.covers / intersects` test that
`find_files` performs with shapely on a fixed (self-intersecting) polygon;
the only effect of that test on the returned value is the early `return []`
in the `outside` case, so it is embedded as an opaque three-way input. -/
inductive RegionCheck
  | covers
  | intersectsPartly
  | outside
deriving DecidableEq

structure AreaBounds where
  xmin : Int
  ymin : Int
  xmax : Int
  ymax : Int
deriving DecidableEq

def find_files (check : RegionCheck) (data : ClientAtlas) (selected_area : AreaBounds) :
    List String :=
  match check with
  | .outside => []
  | _ =>
    let tiles := find_tiles data
      selected_area.xmin selected_area.ymin selected_area.xmax selected_area.ymax
    if tiles = [] then []
    else
      (tiles.filter (fun t =>
        bboxes_intersect t.x t.y (t.x + t.width) (t.y + t.height)
          selected_area.xmin selected_area.ymin selected_area.xmax selected_area.ymax)).map
        (fun t => t.filename)

/-- Concrete two-tile atlas on which `find_files` misses an intersecting
tile: x-keys are `[0, 50000]` and the query starts at `x = 30000`, so the
x-seek window `[30000 - 20000, 30000]` contains no key. -/
def c4Atlas : ClientAtlas :=
  [(0, [(0, ⟨100, 100, "a.laz"⟩)]), (50000, [(0, ⟨100, 100, "b.laz"⟩)])]

def c4WitnessAtlas : ClientAtlas := [(0, [(0, ⟨100, 100, "a.laz"⟩)])]

/-! ### Server LiDAR discovery (src/server-lidar-gpkg-ssh-merged.py, get_lidar_tiles)

The normalised LiDAR atlas is the two-level mapping
`x → (y → {filename, width, height})` with integer keys and fields (the
loader coerces everything with `int`).  `get_lidar_tiles` buffers the request
box, rejects an inverted buffered box with 400, collects every tile whose
rectangle `[x, x+width] × [y, y+height]` passes `bboxes_intersect` against
the buffered box, answers 404 when none matched and the descriptor list
otherwise.  The buffered-coordinate locals are inlined. -/

structure LazInfo where
  width : Int
  height : Int
  filename : String
deriving DecidableEq

abbrev LidarAtlas := List (Int × List (Int × LazInfo))

structure LidarRequest where
  xmin : Int
  ymin : Int
  xmax : Int
  ymax : Int
  buffer : Int
deriving DecidableEq

structure LidarTileDesc where
  filename : String
  xmin : Int
  ymin : Int
  xmax : Int
  ymax : Int
deriving DecidableEq

inductive LidarResp
  | badRequest
  | notFound
  | ok (tiles : List LidarTileDesc)
deriving DecidableEq

def lidarMatches (atlas : LidarAtlas) (req : LidarRequest) : List LidarTileDesc :=
  atlas.flatMap fun p =>
    p.2.filterMap fun q =>
      if bboxes_intersect p.1 q.1 (p.1 + q.2.width) (q.1 + q.2.height)
          (req.xmin - req.buffer) (req.ymin - req.buffer)
          (req.xmax + req.buffer) (req.ymax + req.buffer) then
        some ⟨q.2.filename, p.1, q.1, p.1 + q.2.width, q.1 + q.2.height⟩
      else none

def get_lidar_tiles (atlas : LidarAtlas) (req : LidarRequest) : LidarResp :=
  if req.xmin - req.buffer > req.xmax + req.buffer ∨
      req.ymin - req.buffer > req.ymax + req.buffer then
    .badRequest
  else if lidarMatches atlas req = [] then .notFound
  else .ok (lidarMatches atlas req)

/-- The intersection predicate with the exact disjuncts claim C1 states: its
last disjunct compares `R.ymax` with `Q.ymax`.  Written from the claim's
words (not from the source), to be compared against the source's
`bboxes_intersect`, whose last disjunct is `R.ymin > Q.ymax`. -/
def c1ClaimIntersect (rxmin rymin rxmax rymax qxmin qymin qxmax qymax : Int) : Bool :=
  !(decide (rxmax < qxmin) || decide (rxmin > qxmax) ||
    decide (rymax < qymin) || decide (rymax > qymax))

def c1Atlas : LidarAtlas := [(0, [(0, ⟨10, 10, "t.laz"⟩)])]

/-! ### Client/server reconciliation (src/dtcc_data/atlas/checker.py, files_to_send)

`files_to_send(local, server)` concatenates `np.setdiff1d(local, server)`
with `np.setdiff1d(server, local)`.  `np.setdiff1d(a, b)` returns the sorted
unique values of `a` that are not in `b`; numpy sorts strings
lexicographically by code point, embedded below with an insertion sort over
the character lists (`String.lt` itself does not reduce in the kernel). -/

def charListLt : List Char → List Char → Bool
  | [], [] => false
  | [], _ :: _ => true
  | _ :: _, [] => false
  | a :: as, b :: bs => if a < b then true else if b < a then false else charListLt as bs

def pyStrLt (a b : String) : Bool := charListLt a.data b.data

def insertSorted (x : String) : List String → List String
  | [] => [x]
  | y :: ys => if pyStrLt y x then y :: insertSorted x ys else x :: y :: ys

def sortStrings (l : List String) : List String := l.foldr insertSorted []

def setdiff1d (a b : List String) : List String :=
  sortStrings ((a.filter (fun x => !(b.contains x))).dedup)

def files_to_send (localFiles serverFiles : List String) : List String :=
  setdiff1d localFiles serverFiles ++ setdiff1d serverFiles localFiles

/-! ### Tokens and auth middleware (src/server-lidar-gpkg-ssh-merged.py)

`_TOKENS` maps a token string to `(expiry_epoch, username)`; it is embedded
as a partial map.  `issue_token` stores `(now + TOKEN_TTL_SECONDS, username)`
under the freshly generated token (the random `secrets.token_hex(16)` value
is passed in as an argument).  `validate_token` returns `False` for unknown
tokens, deletes the entry eagerly and returns `False` when `now > expiry`,
and returns `True` otherwise; the possibly-updated map is returned alongside.
The auth middleware passes requests to unprotected paths (or all requests
when auth is disabled) straight through, rejects missing or non-`Bearer `
Authorization headers with 401, and otherwise validates the token after
stripping the `Bearer ` prefix.  `String.startsWith`, `drop` and `trim` are
re-implemented over the character list because the byte-indexed originals do
not reduce in the kernel. -/

abbrev TokenMap := String → Option (Int × String)

def issue_token (tokens : TokenMap) (token username : String) (now ttl : Int) : TokenMap :=
  fun t => if t = token then some (now + ttl, username) else tokens t

def validate_token (tokens : TokenMap) (token : String) (now : Int) : Bool × TokenMap :=
  match tokens token with
  | none => (false, tokens)
  | some (exp, _) =>
    if now > exp then (false, fun t => if t = token then none else tokens t)
    else (true, tokens)

def unprotectedPaths : List String :=
  ["/", "/auth/token", "/auth/github", "/access/request", "/healthz", "/docs",
   "/openapi.json", "/redoc"]

inductive MwOutcome
  | passThrough
  | unauthorized
deriving DecidableEq

def strStartsWithB (s p : String) : Bool := p.data.isPrefixOf s.data

def strDropChars (s : String) (n : Nat) : String := ⟨s.data.drop n⟩

def strTrim (s : String) : String :=
  ⟨((s.data.dropWhile Char.isWhitespace).reverse.dropWhile Char.isWhitespace).reverse⟩

def auth_middleware (enableAuth : Bool) (tokens : TokenMap) (now : Int)
    (path : String) (authHeader : Option String) : MwOutcome × TokenMap :=
  if path ∈ unprotectedPaths ∨ enableAuth = false then (.passThrough, tokens)
  else
    match authHeader with
    | none => (.unauthorized, tokens)
    | some h =>
      if strStartsWithB h "Bearer " then
        match validate_token tokens (strTrim (strDropChars h 7)) now with
        | (true, tokens') => (.passThrough, tokens')
        | (false, tokens') => (.unauthorized, tokens')
      else (.unauthorized, tokens)

/-! ### Access-request throttling (src/server-lidar-gpkg-ssh-merged.py, request_access)

`_AR_IP_LOG` / `_AR_EMAIL_LOG` map a client IP / lowercased email to the list
of admitted submission timestamps.  A submission at `now` first prunes the
key's list to the window (`now - t <= W`), rejects if the last remaining
entry is nearer than the minimum interval `I`, rejects if the pruned list
already holds `M` entries, and otherwise appends `now`; the IP key is checked
before the email key and both logs are written back only when every check
passed (a `raise` inside the lock leaves both dictionaries untouched). -/

def arPrune (now W : Int) (l : List Int) : List Int :=
  l.filter (fun t => decide (now - t ≤ W))

def arIntervalHit (now I : Int) (e : List Int) : Bool :=
  match e.getLast? with
  | some t => decide (now - t < I)
  | none => false

def arAdmitKey (now W I : Int) (M : Nat) (l : List Int) : Option (List Int) :=
  if arIntervalHit now I (arPrune now W l) then none
  else if M ≤ (arPrune now W l).length then none
  else some (arPrune now W l ++ [now])

structure ARState where
  ipLog : String → List Int
  emailLog : String → List Int

def strToLower (s : String) : String := ⟨s.data.map Char.toLower⟩

def requestThrottle (W I : Int) (Mip Mem : Nat) (s : ARState) (ip email : String)
    (now : Int) : Bool × ARState :=
  match arAdmitKey now W I Mip (s.ipLog ip) with
  | none => (false, s)
  | some lip =>
    match arAdmitKey now W I Mem (s.emailLog (strToLower email)) with
    | none => (false, s)
    | some lem =>
      (true, ⟨Function.update s.ipLog ip lip,
        Function.update s.emailLog (strToLower email) lem⟩)

structure Submission where
  time : Int
  ip : String
  email : String
deriving DecidableEq

def arInitState : ARState := ⟨fun _ => [], fun _ => []⟩

def arRun (W I : Int) (Mip Mem : Nat) :
    ARState → List Submission → List (Submission × Bool) × ARState
  | s, [] => ([], s)
  | s, sub :: rest =>
    match requestThrottle W I Mip Mem s sub.ip sub.email sub.time with
    | (ok, s') =>
      match arRun W I Mip Mem s' rest with
      | (tr, sfin) => ((sub, ok) :: tr, sfin)

def admittedIpTimes (tr : List (Submission × Bool)) (ip : String) : List Int :=
  (tr.filter (fun e => e.2 && (e.1.ip == ip))).map (fun e => e.1.time)

def admittedEmailTimes (tr : List (Submission × Bool)) (em : String) : List Int :=
  (tr.filter (fun e => e.2 && (strToLower e.1.email == em))).map (fun e => e.1.time)

/-- Invariant tying one throttle log (for one key) to the list of admitted
submission times for that key, at current time `now`. -/
structure ARKeyInv (W I : Int) (M : Nat) (now : Int) (log admitted : List Int) : Prop where
  admSorted : admitted.Pairwise (· ≤ ·)
  gaps : admitted.Pairwise (fun a b => a + I ≤ b)
  logSorted : log.Pairwise (· ≤ ·)
  logBound : ∀ t ∈ log, t ≤ now
  admBound : ∀ t ∈ admitted, t ≤ now
  lastEq : log.getLast? = admitted.getLast?
  winSub : (admitted.filter (fun t => decide (now - t ≤ W))).Sublist log
  logLen : log.length ≤ M

/-! ### Access-request intake (src/server-lidar-gpkg-ssh-merged.py, request_access)

Field validators: names must fully match `^[A-Za-zÀ-ÖØ-öø-ÿ' -]{2,100}$`
(the handler validates the stripped field, so the `$`-before-trailing-newline
subtlety of `re` cannot arise); the email check is structural; the GitHub
username rule is `^[a-zA-Z\d](?:[a-zA-Z\d]|-(?=[a-zA-Z\d])){0,38}$`, i.e.
1–39 chars, alphanumeric except single hyphens that are followed by an
alphanumeric.  `request_access` checks sizes (the Content-Length header and
the summed field lengths), validates the four stripped fields, throttles,
and only then appends the record to the log and answers 200; a failed append
is answered with 500.  `persistOk` models whether the filesystem append
raises.  `String.trim` is re-implemented over the character list
(`strTrim`). -/

def nameCharOk (c : Char) : Bool :=
  (decide ('A' ≤ c) && decide (c ≤ 'Z')) || (decide ('a' ≤ c) && decide (c ≤ 'z')) ||
  (decide (192 ≤ c.toNat) && decide (c.toNat ≤ 214)) ||
  (decide (216 ≤ c.toNat) && decide (c.toNat ≤ 246)) ||
  (decide (248 ≤ c.toNat) && decide (c.toNat ≤ 255)) ||
  (c == '\'') || (c == ' ') || (c == '-')

def valid_name (s : String) : Bool :=
  decide (2 ≤ s.data.length) && decide (s.data.length ≤ 100) && s.data.all nameCharOk

def valid_email (email : String) : Bool :=
  if decide (254 < email.data.length) || email.data.contains ' ' then false
  else if !(email.data.count '@' == 1) then false
  else
    let locPart := email.data.takeWhile (fun c => c ≠ '@')
    let domPart := (email.data.dropWhile (fun c => c ≠ '@')).drop 1
    !locPart.isEmpty && !domPart.isEmpty &&
      !(domPart.headD ' ' == '.') && !(domPart.getLast? == some '.') &&
      domPart.contains '.'

def ghTailOk : List Char → Bool
  | [] => true
  | '-' :: [] => false
  | '-' :: c :: rest => c.isAlphanum && ghTailOk (c :: rest)
  | c :: rest => c.isAlphanum && ghTailOk rest

def valid_github_username (s : String) : Bool :=
  match s.data with
  | [] => false
  | c :: rest => c.isAlphanum && decide (rest.length ≤ 38) && ghTailOk rest

structure AccessReqInput where
  name : String
  surname : String
  email : String
  github_username : String
deriving DecidableEq

structure AccessRecordM where
  name : String
  surname : String
  email : String
  github_username : String
  timestamp : Int
  remote_addr : String
deriving DecidableEq

inductive AccessOutcome
  | payloadTooLarge
  | badRequest
  | rateLimited
  | internalError
  | accepted
deriving DecidableEq

def request_access (maxBody : Nat) (W I : Int) (Mip Mem : Nat)
    (s : ARState) (req : AccessReqInput) (contentLength : Nat) (ip : String)
    (now : Int) (persistOk : Bool) : AccessOutcome × ARState × List AccessRecordM :=
  if contentLength ≠ 0 ∧ maxBody < contentLength then (.payloadTooLarge, s, [])
  else if maxBody < req.name.data.length + req.surname.data.length +
      req.email.data.length + req.github_username.data.length then
    (.payloadTooLarge, s, [])
  else if !(valid_name (strTrim req.name)) then (.badRequest, s, [])
  else if !(valid_name (strTrim req.surname)) then (.badRequest, s, [])
  else if !(valid_email (strTrim req.email)) then (.badRequest, s, [])
  else if !(valid_github_username (strTrim req.github_username)) then (.badRequest, s, [])
  else
    match requestThrottle W I Mip Mem s ip (strTrim req.email) now with
    | (false, s') => (.rateLimited, s', [])
    | (true, s') =>
      if persistOk then
        (.accepted, s', [⟨strTrim req.name, strTrim req.surname, strTrim req.email,
          strTrim req.github_username, now, ip⟩])
      else (.internalError, s', [])

/-! ### Access-request persistence (src/server-lidar-gpkg-ssh-merged.py, append_access_request)

The filesystem effects of `append_access_request` as the sequence of
operations it performs: open the log in append mode, write the JSON line plus
a newline, close.  There is no fsync and no temp-file/rename step. -/

inductive FsOp
  | openAppend (path : String)
  | write (path data : String)
  | close (path : String)
  | fsync (path : String)
  | rename (src dst : String)
deriving DecidableEq

def append_access_request_ops (directory line : String) : List FsOp :=
  [FsOp.openAppend (directory ++ "/requests.jsonl"),
   FsOp.write (directory ++ "/requests.jsonl") (line ++ "\n"),
   FsOp.close (directory ++ "/requests.jsonl")]

/-! ### Local atlas update (src/dtcc_data/atlas/utils.py, update_laz_atlas / update_gpkg_atlas)

Both functions load the existing two-level JSON atlas (string keys), insert
one entry per downloaded file via `data[str(x)][str(y)] = {...}` (creating
the outer dict on KeyError), then rebuild the catalog iterating
`sorted(data.keys())` at both levels — `sorted` on the *string* keys, i.e.
lexicographic by code point — and write it back.  The LAZ variant filters
`*.laz` files and derives the entry from the LAZ header extents; the GPKG
variant reads the `missing_coords.json` sidecar mapping filename to
`[x, y]` and stores fixed `10000 × 10000` extents. -/

structure AtlasEntry where
  height : Int
  width : Int
  filename : String
deriving DecidableEq

abbrev NestedAtlas := List (String × List (String × AtlasEntry))

def lookupKey {α : Type} : List (String × α) → String → Option α
  | [], _ => none
  | (k, v) :: rest, key => if k = key then some v else lookupKey rest key

def lookup2 (d : NestedAtlas) (xk yk : String) : Option AtlasEntry :=
  match lookupKey d xk with
  | none => none
  | some inner => lookupKey inner yk

def dictUpsert {α : Type} (d : List (String × α)) (k : String) (v : α) :
    List (String × α) :=
  if (d.map Prod.fst).contains k then
    d.map (fun p => if p.1 = k then (k, v) else p)
  else d ++ [(k, v)]

def nestedUpsert (d : NestedAtlas) (xk yk : String) (v : AtlasEntry) : NestedAtlas :=
  match lookupKey d xk with
  | some inner => dictUpsert d xk (dictUpsert inner yk v)
  | none => d ++ [(xk, [(yk, v)])]

def insertByKey {α : Type} (p : String × α) : List (String × α) → List (String × α)
  | [] => [p]
  | q :: qs => if pyStrLt q.1 p.1 then q :: insertByKey p qs else p :: q :: qs

def sortByKey {α : Type} (l : List (String × α)) : List (String × α) :=
  l.foldr insertByKey []

def sortCatalog (d : NestedAtlas) : NestedAtlas :=
  sortByKey (d.map (fun p => (p.1, sortByKey p.2)))

structure LazFile where
  filename : String
  min_x : Int
  min_y : Int
  max_x : Int
  max_y : Int
deriving DecidableEq

def strEndsWithB (s suffix : String) : Bool := suffix.data.isSuffixOf s.data

def update_laz_atlas_data (old : NestedAtlas) (files : List LazFile) : NestedAtlas :=
  sortCatalog ((files.filter (fun f => strEndsWithB f.filename ".laz")).foldl
    (fun d f => nestedUpsert d (toString f.min_x) (toString f.min_y)
      ⟨f.max_y - f.min_y, f.max_x - f.min_x, f.filename⟩) old)

def update_gpkg_atlas_data (old : NestedAtlas) (missing : List (String × Int × Int)) :
    NestedAtlas :=
  sortCatalog (missing.foldl
    (fun d it => nestedUpsert d (toString it.2.1) (toString it.2.2)
      ⟨10000, 10000, it.1⟩) old)

/-- Reads a decimal string key back as the integer it denotes (the model of
`sorted ascending as integers` in the claim). -/
def digitsVal : List Char → Int → Int
  | [], acc => acc
  | c :: rest, acc => digitsVal rest (acc * 10 + ((c.toNat : Int) - 48))

def strKeyToInt (s : String) : Int :=
  match s.data with
  | '-' :: rest => -(digitsVal rest 0)
  | l => digitsVal l 0

/-- Outer and inner key lists of a nested atlas have no duplicates (Python
dicts cannot). -/
def atlasKeysNodup (d : NestedAtlas) : Prop :=
  (d.map Prod.fst).Nodup ∧ ∀ p ∈ d, (p.2.map Prod.fst).Nodup

/-- Atlas whose keys sort differently as strings and as integers. -/
def c8Atlas : NestedAtlas :=
  [("9", [("0", ⟨2500, 2500, "a.laz"⟩)]), ("10", [("0", ⟨2500, 2500, "b.laz"⟩)])]

/-! ### Proofs about the binary search -/

lemma sorted_getD_mono (arr : List Int) (h : arr.Pairwise (· ≤ ·))
    {i j : Nat} (hij : i ≤ j) (hj : j < arr.length) :
    arr.getD i 0 ≤ arr.getD j 0 := by
  rcases Nat.eq_or_lt_of_le hij with rfl | hlt
  · exact le_refl _
  · have hi : i < arr.length := lt_trans hlt hj
    rw [List.getD_eq_get?, List.getD_eq_get?, List.get?_eq_get hi, List.get?_eq_get hj]
    exact List.pairwise_iff_get.mp h ⟨i, hi⟩ ⟨j, hj⟩ hlt

lemma bswrGo_spec (arr : List Int) (lb hb : Int) (hsorted : arr.Pairwise (· ≤ ·)) :
    ∀ (fuel : Nat) (low high : Int),
    (high + 1 - low).toNat < fuel →
    0 ≤ low →
    high < (arr.length : Int) →
    (∀ j : Nat, j < arr.length → (j : Int) < low → arr.getD j 0 < lb) →
    (∀ j : Nat, j < arr.length → high < (j : Int) →
        ¬(inSeekRange arr lb hb j ∧ ∀ j' : Nat, j' < j → arr.getD j' 0 < lb)) →
    (match bswrGo arr lb hb fuel low high with
     | some i => i < arr.length ∧ inSeekRange arr lb hb i ∧
         ∀ j' : Nat, j' < i → arr.getD j' 0 < lb
     | none => ∀ j : Nat, j < arr.length → ¬ inSeekRange arr lb hb j) := by
  intro fuel
  induction fuel with
  | zero => intro low high hfuel; omega
  | succ fuel ih =>
    intro low high hfuel hlow hhigh hA hB
    by_cases hlh : low ≤ high
    · -- the loop body runs
      have hmid1 : low ≤ (low + high) / 2 := by omega
      have hmid2 : (low + high) / 2 ≤ high := by omega
      set mid : Int := (low + high) / 2 with hmiddef
      have hmidlen : mid.toNat < arr.length := by omega
      by_cases hin : lb ≤ arr.getD mid.toNat 0 ∧ arr.getD mid.toNat 0 ≤ hb
      · by_cases hfirst : mid = 0 ∨ arr.getD (mid - 1).toNat 0 < lb
        · -- found: return mid
          have : bswrGo arr lb hb (fuel + 1) low high = some mid.toNat := by
            simp only [bswrGo, if_pos hlh, ← hmiddef, if_pos hin, if_pos hfirst]
          rw [this]
          refine ⟨hmidlen, hin, ?_⟩
          intro j' hj'
          rcases hfirst with h0 | hprev
          · omega
          · have hmid0 : mid ≠ 0 := by omega
            have hj'le : j' ≤ (mid - 1).toNat := by omega
            have hj'len : (mid - 1).toNat < arr.length := by omega
            exact lt_of_le_of_lt (sorted_getD_mono arr hsorted hj'le hj'len) hprev
        · -- in range but not first: go left
          have heq : bswrGo arr lb hb (fuel + 1) low high =
              bswrGo arr lb hb fuel low (mid - 1) := by
            simp only [bswrGo, if_pos hlh, ← hmiddef, if_pos hin, if_neg hfirst]
          rw [heq]
          push_neg at hfirst
          obtain ⟨hmid0, hprevge⟩ := hfirst
          refine ih low (mid - 1) (by omega) hlow (by omega) hA ?_
          intro j hj hjgt hcontra
          obtain ⟨_, hfirstj⟩ := hcontra
          have hlt : (mid - 1).toNat < j := by omega
          have := hfirstj (mid - 1).toNat hlt
          omega
      · by_cases hlt : arr.getD mid.toNat 0 < lb
        · -- below range: go right
          have heq : bswrGo arr lb hb (fuel + 1) low high =
              bswrGo arr lb hb fuel (mid + 1) high := by
            simp only [bswrGo, if_pos hlh, ← hmiddef, if_neg hin, if_pos hlt]
          rw [heq]
          refine ih (mid + 1) high (by omega) (by omega) hhigh ?_ hB
          intro j hj hjlt
          have hjle : j ≤ mid.toNat := by omega
          exact lt_of_le_of_lt (sorted_getD_mono arr hsorted hjle hmidlen) hlt
        · -- above range: go left
          have hgt : hb < arr.getD mid.toNat 0 := by
            rcases not_and_or.mp hin with h | h <;> omega
          have heq : bswrGo arr lb hb (fuel + 1) low high =
              bswrGo arr lb hb fuel low (mid - 1) := by
            simp only [bswrGo, if_pos hlh, ← hmiddef, if_neg hin, if_neg hlt]
          rw [heq]
          refine ih low (mid - 1) (by omega) hlow (by omega) hA ?_
          intro j hj hjgt hcontra
          obtain ⟨⟨_, hjub⟩, _⟩ := hcontra
          have hmle : mid.toNat ≤ j := by omega
          have := sorted_getD_mono arr hsorted hmle hj
          omega
    · -- loop exits: nothing in range anywhere
      have : bswrGo arr lb hb (fuel + 1) low high = none := by
        simp only [bswrGo, if_neg hlh]
      rw [this]
      intro j hj hrange
      haveI hdec : DecidablePred fun k => k < arr.length ∧ inSeekRange arr lb hb k := by
        intro k
        unfold inSeekRange
        exact inferInstance
      have hex : ∃ k, k < arr.length ∧ inSeekRange arr lb hb k := ⟨j, hj, hrange⟩
      obtain ⟨hj0len, hj0range⟩ := Nat.find_spec hex
      set j0 := Nat.find hex with hj0def
      have hj0first : ∀ j' : Nat, j' < j0 → arr.getD j' 0 < lb := by
        intro j' hj'
        have hnot := Nat.find_min hex hj'
        push_neg at hnot
        have hj'len : j' < arr.length := lt_trans hj' hj0len
        have := hnot hj'len
        unfold inSeekRange at this
        by_contra hge
        push_neg at hge
        have hle : arr.getD j' 0 ≤ arr.getD j0 0 := sorted_getD_mono arr hsorted (le_of_lt hj') hj0len
        obtain ⟨_, hub⟩ := hj0range
        omega
      by_cases hcase : (j0 : Int) < low
      · have := hA j0 hj0len hcase
        obtain ⟨hlb, _⟩ := hj0range
        omega
      · have hgt : high < (j0 : Int) := by omega
        exact hB j0 hj0len hgt ⟨hj0range, hj0first⟩

/-- Claim C5: for every list of integer keys sorted ascending and bounds
`L ≤ H`, `binary_search_within_range` returns the index of the smallest key
`k` with `L ≤ k ≤ H` (the first index in range, and its key is a lower bound
of every in-range key), and returns `none` exactly when no key lies in
`[L, H]` (in particular on the empty list). -/
theorem c5_binary_search_correct (arr : List Int) (lb hb : Int)
    (hsorted : arr.Pairwise (· ≤ ·)) (hlh : lb ≤ hb) :
    (binary_search_within_range arr lb hb = none ↔
      ∀ j : Nat, j < arr.length → ¬(lb ≤ arr.getD j 0 ∧ arr.getD j 0 ≤ hb)) ∧
    (∀ i : Nat, binary_search_within_range arr lb hb = some i →
      i < arr.length ∧ lb ≤ arr.getD i 0 ∧ arr.getD i 0 ≤ hb ∧
      (∀ j' : Nat, j' < i → arr.getD j' 0 < lb) ∧
      (∀ j : Nat, j < arr.length → lb ≤ arr.getD j 0 → arr.getD j 0 ≤ hb →
        arr.getD i 0 ≤ arr.getD j 0)) := by
  have hmain := bswrGo_spec arr lb hb hsorted (arr.length + 1) 0 ((arr.length : Int) - 1)
    (by omega) (by omega) (by omega)
    (by intro j hj hjlt; omega)
    (by intro j hj hgt _; omega)
  unfold binary_search_within_range
  constructor
  · constructor
    · intro hnone
      rw [hnone] at hmain
      intro j hj
      exact hmain j hj
    · intro hempty
      cases hres : bswrGo arr lb hb (arr.length + 1) 0 ((arr.length : Int) - 1) with
      | none => rfl
      | some i =>
        rw [hres] at hmain
        obtain ⟨hlen, hrange, _⟩ := hmain
        exact absurd hrange (hempty i hlen)
  · intro i hsome
    rw [hsome] at hmain
    obtain ⟨hlen, ⟨hlb, hub⟩, hfirst⟩ := hmain
    refine ⟨hlen, hlb, hub, hfirst, ?_⟩
    intro j hj hjlb hjub
    by_cases hji : j < i
    · have := hfirst j hji; omega
    · exact sorted_getD_mono arr hsorted (by omega) hj

theorem c5_binary_search_correct_witness :
    List.Pairwise (· ≤ ·) [(3 : Int), 5, 9] ∧ (4 : Int) ≤ 10 ∧
    (1 < ([(3 : Int), 5, 9]).length ∧ (4 : Int) ≤ [(3 : Int), 5, 9].getD 1 0 ∧
      [(3 : Int), 5, 9].getD 1 0 ≤ 10 ∧
      (∀ j' : Nat, j' < 1 → [(3 : Int), 5, 9].getD j' 0 < 4) ∧
      (∀ j : Nat, j < ([(3 : Int), 5, 9]).length → 4 ≤ [(3 : Int), 5, 9].getD j 0 →
        [(3 : Int), 5, 9].getD j 0 ≤ 10 →
        [(3 : Int), 5, 9].getD 1 0 ≤ [(3 : Int), 5, 9].getD j 0)) :=
  ⟨by decide, by decide,
    (c5_binary_search_correct [3, 5, 9] 4 10 (by decide) (by decide)).2 1 (by decide)⟩

/-! ### Proofs about the client atlas query -/

lemma ftInnerGo_mem (xk b3 pad : Int) :
    ∀ (ydict : List (Int × TileInfo)) (pm : Int) (t : FoundTile),
    t ∈ ftInnerGo xk b3 pad pm ydict →
    ∃ yk info, (yk, info) ∈ ydict ∧
      t = ⟨xk, yk, info.width, info.height, info.filename⟩ := by
  intro ydict
  induction ydict with
  | nil => intro pm t ht; simp [ftInnerGo] at ht
  | cons hd rest ih =>
    intro pm t ht
    obtain ⟨yk, info⟩ := hd
    rw [ftInnerGo] at ht
    by_cases hcond : yk ≤ b3 + pad ∧ pm < b3 + pad
    · rw [if_pos hcond] at ht
      rcases List.mem_cons.mp ht with heq | hrest
      · exact ⟨yk, info, List.mem_cons_self _ _, heq⟩
      · obtain ⟨yk', info', hmem, heq⟩ := ih (info.width + yk) t hrest
        exact ⟨yk', info', List.mem_cons_of_mem _ hmem, heq⟩
    · rw [if_neg hcond] at ht
      simp at ht

lemma ftOuterGo_mem (b1 b2 b3 pad : Int) :
    ∀ (data : List (Int × List (Int × TileInfo))) (res : List FoundTile)
      (t : FoundTile),
    ftOuterGo b1 b2 b3 pad data = some res → t ∈ res →
    ∃ xk ydict yk info, (xk, ydict) ∈ data ∧ (yk, info) ∈ ydict ∧
      t = ⟨xk, yk, info.width, info.height, info.filename⟩ := by
  intro data
  induction data with
  | nil =>
    intro res t hres ht
    rw [ftOuterGo] at hres
    cases hres
    simp at ht
  | cons hd rest ih =>
    intro res t hres ht
    obtain ⟨xk, ydict⟩ := hd
    rw [ftOuterGo] at hres
    by_cases hcond : xk ≤ b2 + pad
    · rw [if_pos hcond] at hres
      cases hseek : ftSeekY b1 pad ydict with
      | none => rw [hseek] at hres; cases hres
      | some index_y =>
        rw [hseek] at hres
        cases hrec : ftOuterGo b1 b2 b3 pad rest with
        | none => rw [hrec] at hres; cases hres
        | some more =>
          rw [hrec] at hres
          cases hres
          rcases List.mem_append.mp ht with hin | hmore
          · obtain ⟨yk, info, hmem, heq⟩ := ftInnerGo_mem xk b3 pad _ 0 t hin
            exact ⟨xk, ydict, yk, info, List.mem_cons_self _ _,
              List.mem_of_mem_drop hmem, heq⟩
          · obtain ⟨xk', yd', yk', info', hm1, hm2, heq⟩ := ih more t hrec hmore
            exact ⟨xk', yd', yk', info', List.mem_cons_of_mem _ hm1, hm2, heq⟩
    · rw [if_neg hcond] at hres
      cases hres
      simp at ht

lemma find_tiles_mem (data : ClientAtlas) (b0 b1 b2 b3 : Int) (t : FoundTile)
    (ht : t ∈ find_tiles data b0 b1 b2 b3) :
    ∃ xk ydict yk info, (xk, ydict) ∈ data ∧ (yk, info) ∈ ydict ∧
      t = ⟨xk, yk, info.width, info.height, info.filename⟩ := by
  unfold find_tiles at ht
  by_cases hempty : data = []
  · rw [if_pos hempty] at ht; simp at ht
  · rw [if_neg hempty] at ht
    cases hseek : ftSeekX b0 20000 (data.map Prod.fst) with
    | none => rw [hseek] at ht; simp at ht
    | some index_x =>
      rw [hseek] at ht
      dsimp only at ht
      cases hout : ftOuterGo b1 b2 b3 20000 (data.drop index_x) with
      | none => rw [hout] at ht; simp at ht
      | some res =>
        rw [hout] at ht
        simp only [Option.getD_some] at ht
        obtain ⟨xk, ydict, yk, info, hm1, hm2, heq⟩ := ftOuterGo_mem _ _ _ _ _ res t hout ht
        exact ⟨xk, ydict, yk, info, List.mem_of_mem_drop hm1, hm2, heq⟩

/-- Claim C4 (amended): every filename returned by the client-side query
`find_files` (over `find_tiles`) comes from a tile of the atlas whose
rectangle intersects the query rectangle under the closed predicate — the
query returns no non-intersecting tile.  (The other half of the original
claim — that no intersecting tile is omitted — is refuted by
`c4_counterexample`.) -/
theorem c4_find_files_sound (check : RegionCheck) (data : ClientAtlas)
    (area : AreaBounds) (f : String)
    (hf : f ∈ find_files check data area) :
    ∃ xk ydict yk info, (xk, ydict) ∈ data ∧ (yk, info) ∈ ydict ∧
      info.filename = f ∧
      bboxes_intersect xk yk (xk + info.width) (yk + info.height)
        area.xmin area.ymin area.xmax area.ymax = true := by
  unfold find_files at hf
  cases check with
  | outside => simp at hf
  | covers | intersectsPartly =>
    simp only at hf
    by_cases hempty :
        find_tiles data area.xmin area.ymin area.xmax area.ymax = []
    · rw [if_pos hempty] at hf; simp at hf
    · rw [if_neg hempty] at hf
      obtain ⟨t, htmem, hteq⟩ := List.mem_map.mp hf
      obtain ⟨htiles, hinter⟩ := List.mem_filter.mp htmem
      obtain ⟨xk, ydict, yk, info, hm1, hm2, heq⟩ :=
        find_tiles_mem data area.xmin area.ymin area.xmax area.ymax t htiles
      subst heq
      exact ⟨xk, ydict, yk, info, hm1, hm2, hteq, hinter⟩

/-- Claim C4, counterexample: on `c4Atlas` and query box
`(30000, 0, 60000, 10000)` the query returns no file (whatever the region
check says), yet the atlas tile `b.laz` at `(50000, 0)` with extent
`100 × 100` intersects the query rectangle.  The claim that the returned
set equals the set of intersecting tiles is therefore false. -/
theorem c4_counterexample :
    find_files .covers c4Atlas ⟨30000, 0, 60000, 10000⟩ = [] ∧
    find_files .intersectsPartly c4Atlas ⟨30000, 0, 60000, 10000⟩ = [] ∧
    find_files .outside c4Atlas ⟨30000, 0, 60000, 10000⟩ = [] ∧
    ((50000 : Int), [((0 : Int), (⟨100, 100, "b.laz"⟩ : TileInfo))]) ∈ c4Atlas ∧
    bboxes_intersect 50000 0 50100 100 30000 0 60000 10000 = true := by decide

theorem c4_find_files_sound_witness :
    ("a.laz" ∈ find_files .covers c4WitnessAtlas ⟨50, 50, 150, 150⟩) ∧
    (∃ xk ydict yk info, (xk, ydict) ∈ c4WitnessAtlas ∧ (yk, info) ∈ ydict ∧
      info.filename = "a.laz" ∧
      bboxes_intersect xk yk (xk + info.width) (yk + info.height)
        50 50 150 150 = true) :=
  ⟨by decide, c4_find_files_sound .covers c4WitnessAtlas ⟨50, 50, 150, 150⟩ "a.laz" (by decide)⟩

/-! ### Proofs about the server LiDAR discovery (C1) -/

lemma lidarMatches_mem (atlas : LidarAtlas) (req : LidarRequest) (d : LidarTileDesc) :
    d ∈ lidarMatches atlas req ↔
    ∃ x ydict y info, (x, ydict) ∈ atlas ∧ (y, info) ∈ ydict ∧
      d = ⟨info.filename, x, y, x + info.width, y + info.height⟩ ∧
      bboxes_intersect x y (x + info.width) (y + info.height)
        (req.xmin - req.buffer) (req.ymin - req.buffer)
        (req.xmax + req.buffer) (req.ymax + req.buffer) = true := by
  unfold lidarMatches
  rw [List.mem_flatMap]
  constructor
  · rintro ⟨⟨x, ydict⟩, hp, hq⟩
    obtain ⟨⟨y, info⟩, hq2, heq⟩ := List.mem_filterMap.mp hq
    by_cases hcond : bboxes_intersect x y (x + info.width) (y + info.height)
        (req.xmin - req.buffer) (req.ymin - req.buffer)
        (req.xmax + req.buffer) (req.ymax + req.buffer) = true
    · rw [if_pos hcond] at heq
      exact ⟨x, ydict, y, info, hp, hq2, (Option.some.inj heq).symm, hcond⟩
    · rw [if_neg hcond] at heq; cases heq
  · rintro ⟨x, ydict, y, info, h1, h2, rfl, hinter⟩
    exact ⟨(x, ydict), h1, List.mem_filterMap.mpr ⟨(y, info), h2, by rw [if_pos hinter]⟩⟩

lemma lidarMatches_nodup (atlas : LidarAtlas) (req : LidarRequest)
    (hx : (atlas.map Prod.fst).Nodup) (hy : ∀ p ∈ atlas, (p.2.map Prod.fst).Nodup) :
    (lidarMatches atlas req).Nodup := by
  unfold lidarMatches
  rw [List.nodup_flatMap]
  constructor
  · intro p hp
    refine List.Nodup.filterMap ?_ ((hy p hp).of_map _)
    rintro ⟨y, info⟩ ⟨y', info'⟩ b hb hb'
    simp only [Option.mem_def] at hb hb'
    split_ifs at hb hb' with h1 h2
    · obtain rfl := Option.some.inj hb
      have heq := Option.some.inj hb'
      simp only [LidarTileDesc.mk.injEq] at heq
      obtain ⟨hf, _, hymin, hxmax, hymax⟩ := heq
      have hw : info'.width = info.width := by omega
      have hh : info'.height = info.height := by omega
      obtain ⟨w, ht, f⟩ := info
      obtain ⟨w', ht', f'⟩ := info'
      simp only at hf hw hh
      simp [hymin, hf, hw, hh]
  · have hpw : atlas.Pairwise (fun a b => a.1 ≠ b.1) := List.pairwise_map.mp hx
    refine hpw.imp ?_
    intro a b hne d hda hdb
    obtain ⟨⟨y, info⟩, _, heqa⟩ := List.mem_filterMap.mp hda
    obtain ⟨⟨y', info'⟩, _, heqb⟩ := List.mem_filterMap.mp hdb
    split_ifs at heqa heqb
    have ha := Option.some.inj heqa
    have hb := Option.some.inj heqb
    apply hne
    have : d.xmin = a.1 := by rw [← ha]
    have : d.xmin = b.1 := by rw [← hb]
    omega

/-- Claim C1 (amended): against a loaded LiDAR atlas (with unique keys at
both levels), `get_lidar_tiles` fails with 400 iff the buffered box is
inverted; otherwise it fails with 404 iff no tile rectangle
`[x, x+width] × [y, y+height]` intersects the buffered box under the source's
closed predicate `¬(R.xmax < Q.xmin ∨ R.xmin > Q.xmax ∨ R.ymax < Q.ymin ∨
R.ymin > Q.ymax)` (`bboxes_intersect`), and else returns exactly the
descriptors of the intersecting tiles with no duplicates.  (The original
claim's predicate, whose last disjunct reads `R.ymax > Q.ymax`, is refuted by
`c1_counterexample`.) -/
theorem c1_lidar_discovery (atlas : LidarAtlas) (req : LidarRequest)
    (hx : (atlas.map Prod.fst).Nodup) (hy : ∀ p ∈ atlas, (p.2.map Prod.fst).Nodup) :
    (get_lidar_tiles atlas req = .badRequest ↔
      req.xmin - req.buffer > req.xmax + req.buffer ∨
      req.ymin - req.buffer > req.ymax + req.buffer) ∧
    (get_lidar_tiles atlas req = .notFound ↔
      ¬(req.xmin - req.buffer > req.xmax + req.buffer ∨
        req.ymin - req.buffer > req.ymax + req.buffer) ∧
      ∀ x ydict y info, (x, ydict) ∈ atlas → (y, info) ∈ ydict →
        bboxes_intersect x y (x + info.width) (y + info.height)
          (req.xmin - req.buffer) (req.ymin - req.buffer)
          (req.xmax + req.buffer) (req.ymax + req.buffer) = false) ∧
    (∀ l, get_lidar_tiles atlas req = .ok l →
      l.Nodup ∧
      ∀ d, d ∈ l ↔ ∃ x ydict y info, (x, ydict) ∈ atlas ∧ (y, info) ∈ ydict ∧
        d = ⟨info.filename, x, y, x + info.width, y + info.height⟩ ∧
        bboxes_intersect x y (x + info.width) (y + info.height)
          (req.xmin - req.buffer) (req.ymin - req.buffer)
          (req.xmax + req.buffer) (req.ymax + req.buffer) = true) := by
  have hemptyiff : lidarMatches atlas req = [] ↔
      ∀ x ydict y info, (x, ydict) ∈ atlas → (y, info) ∈ ydict →
        bboxes_intersect x y (x + info.width) (y + info.height)
          (req.xmin - req.buffer) (req.ymin - req.buffer)
          (req.xmax + req.buffer) (req.ymax + req.buffer) = false := by
    rw [List.eq_nil_iff_forall_not_mem]
    constructor
    · intro hnone x ydict y info h1 h2
      by_contra hne
      have htrue : bboxes_intersect x y (x + info.width) (y + info.height)
          (req.xmin - req.buffer) (req.ymin - req.buffer)
          (req.xmax + req.buffer) (req.ymax + req.buffer) = true := by
        revert hne; cases bboxes_intersect x y (x + info.width) (y + info.height)
          (req.xmin - req.buffer) (req.ymin - req.buffer)
          (req.xmax + req.buffer) (req.ymax + req.buffer) <;> simp
      exact hnone _ ((lidarMatches_mem atlas req _).mpr ⟨x, ydict, y, info, h1, h2, rfl, htrue⟩)
    · intro hall d hd
      obtain ⟨x, ydict, y, info, h1, h2, _, hinter⟩ := (lidarMatches_mem atlas req d).mp hd
      rw [hall x ydict y info h1 h2] at hinter
      simp at hinter
  unfold get_lidar_tiles
  by_cases hbad : req.xmin - req.buffer > req.xmax + req.buffer ∨
      req.ymin - req.buffer > req.ymax + req.buffer
  · rw [if_pos hbad]
    refine ⟨iff_of_true rfl hbad, ?_, ?_⟩
    · constructor
      · intro hcontra; cases hcontra
      · rintro ⟨hnb, _⟩; exact absurd hbad hnb
    · intro l hl; cases hl
  · rw [if_neg hbad]
    by_cases hempty : lidarMatches atlas req = []
    · rw [if_pos hempty]
      refine ⟨?_, ?_, ?_⟩
      · constructor
        · intro hcontra; cases hcontra
        · intro hb; exact absurd hb hbad
      · exact iff_of_true rfl ⟨hbad, hemptyiff.mp hempty⟩
      · intro l hl; cases hl
    · rw [if_neg hempty]
      refine ⟨?_, ?_, ?_⟩
      · constructor
        · intro hcontra; cases hcontra
        · intro hb; exact absurd hb hbad
      · constructor
        · intro hcontra; cases hcontra
        · rintro ⟨_, hall⟩; exact absurd (hemptyiff.mpr hall) hempty
      · intro l hl
        obtain rfl := (LidarResp.ok.inj hl).symm
        exact ⟨lidarMatches_nodup atlas req hx hy, fun d => lidarMatches_mem atlas req d⟩

/-- Claim C1, counterexample: the tile at origin `(0,0)` with extent
`10 × 10` is returned by the code for the query box `(0, 0, 10, 5)` (buffer
`0`), but the claim's predicate — whose last disjunct is
`R.ymax > Q.ymax`, i.e. `10 > 5` — calls this pair non-intersecting, so the
claim's description of the returned set is false. -/
theorem c1_counterexample :
    get_lidar_tiles c1Atlas ⟨0, 0, 10, 5, 0⟩ = .ok [⟨"t.laz", 0, 0, 10, 10⟩] ∧
    c1ClaimIntersect 0 0 10 10 0 0 10 5 = false ∧
    bboxes_intersect 0 0 10 10 0 0 10 5 = true := by decide

def c1Req : LidarRequest := ⟨200, 200, 300, 300, 0⟩

theorem c1_lidar_discovery_witness :
    get_lidar_tiles c1Atlas c1Req = .notFound ↔
      ¬(c1Req.xmin - c1Req.buffer > c1Req.xmax + c1Req.buffer ∨
        c1Req.ymin - c1Req.buffer > c1Req.ymax + c1Req.buffer) ∧
      ∀ x ydict y info, (x, ydict) ∈ c1Atlas → (y, info) ∈ ydict →
        bboxes_intersect x y (x + info.width) (y + info.height)
          (c1Req.xmin - c1Req.buffer) (c1Req.ymin - c1Req.buffer)
          (c1Req.xmax + c1Req.buffer) (c1Req.ymax + c1Req.buffer) = false :=
  (c1_lidar_discovery c1Atlas c1Req (by decide) (by decide)).2.1

/-! ### Proofs about the client reconcile difference (C2) -/

lemma mem_insertSorted (x y : String) : ∀ l : List String,
    y ∈ insertSorted x l ↔ y = x ∨ y ∈ l := by
  intro l
  induction l with
  | nil => simp [insertSorted]
  | cons hd tl ih =>
    rw [insertSorted]
    by_cases hlt : pyStrLt hd x = true
    · rw [if_pos hlt]
      simp only [List.mem_cons, ih]
      tauto
    · rw [if_neg hlt]
      simp only [List.mem_cons]

lemma mem_sortStrings (l : List String) (y : String) :
    y ∈ sortStrings l ↔ y ∈ l := by
  unfold sortStrings
  induction l with
  | nil => simp
  | cons hd tl ih =>
    simp only [List.foldr_cons, mem_insertSorted, List.mem_cons, ih]

lemma mem_setdiff1d (a b : List String) (x : String) :
    x ∈ setdiff1d a b ↔ x ∈ a ∧ x ∉ b := by
  unfold setdiff1d
  rw [mem_sortStrings, List.mem_dedup, List.mem_filter]
  simp [List.elem_iff]

/-- Claim C2 (amended): the missing set computed by the client reconcile
(`files_to_send`) is the *symmetric* difference by filename: a filename is in
the result iff it is on exactly one of the two sides — so every server-only
filename is included, but local-only filenames are included as well.  (The
original one-way `Server \ Local` claim is refuted by `c2_counterexample`.) -/
theorem c2_files_to_send_symm_diff (localFiles serverFiles : List String) (x : String) :
    x ∈ files_to_send localFiles serverFiles ↔
      (x ∈ localFiles ∧ x ∉ serverFiles) ∨ (x ∈ serverFiles ∧ x ∉ localFiles) := by
  unfold files_to_send
  rw [List.mem_append, mem_setdiff1d, mem_setdiff1d]

/-- Claim C2, counterexample: with local = `["A.laz"]` and server = `[]`,
`files_to_send` returns `["A.laz"]`, a filename that is only present
locally — the set difference `Server \ Local` would be empty. -/
theorem c2_counterexample :
    files_to_send ["A.laz"] [] = ["A.laz"] ∧ "A.laz" ∉ ([] : List String) := by decide

/-! ### Proofs about tokens and the auth middleware (C3, C6) -/

/-- Claim C6: token validation succeeds iff the token is in the map with an
expiry not in the past; for an expired token `validate_token` deletes the
entry and reports failure, after which the token never validates again at any
time; an issued token validates at every time up to its expiry. -/
theorem c6_token_lifecycle :
    (∀ (m : TokenMap) (tok : String) (now : Int),
      (validate_token m tok now).1 = true ↔
        ∃ exp user, m tok = some (exp, user) ∧ now ≤ exp) ∧
    (∀ (m : TokenMap) (tok : String) (now exp : Int) (user : String),
      m tok = some (exp, user) → exp < now →
        (validate_token m tok now).1 = false ∧
        (validate_token m tok now).2 tok = none ∧
        (∀ now', (validate_token (validate_token m tok now).2 tok now').1 = false)) ∧
    (∀ (m : TokenMap) (tok user : String) (now ttl now' : Int), now' ≤ now + ttl →
      (validate_token (issue_token m tok user now ttl) tok now').1 = true) := by
  have hval_expired : ∀ (m : TokenMap) (tok : String) (now exp : Int) (user : String),
      m tok = some (exp, user) → exp < now →
      validate_token m tok now = (false, fun t => if t = tok then none else m t) := by
    intro m tok now exp user hsome hexp
    unfold validate_token
    rw [hsome]
    dsimp only
    rw [if_pos (by omega)]
  refine ⟨?_, ?_, ?_⟩
  · intro m tok now
    constructor
    · intro htrue
      unfold validate_token at htrue
      cases hm : m tok with
      | none => rw [hm] at htrue; simp at htrue
      | some p =>
        obtain ⟨exp, user⟩ := p
        rw [hm] at htrue
        dsimp only at htrue
        by_cases hexp : now > exp
        · rw [if_pos hexp] at htrue; simp at htrue
        · exact ⟨exp, user, rfl, by omega⟩
    · rintro ⟨exp, user, hsome, hle⟩
      unfold validate_token
      rw [hsome]
      dsimp only
      rw [if_neg (by omega)]
  · intro m tok now exp user hsome hexp
    have hval := hval_expired m tok now exp user hsome hexp
    refine ⟨by rw [hval], by rw [hval]; simp, ?_⟩
    intro now'
    rw [hval]
    unfold validate_token
    simp
  · intro m tok user now ttl now' hle
    have hlook : issue_token m tok user now ttl tok = some (now + ttl, user) := by
      unfold issue_token
      rw [if_pos rfl]
    unfold validate_token
    rw [hlook]
    dsimp only
    rw [if_neg (by omega)]

def c6Map : TokenMap := fun t => if t = "tok1" then some (50, "alice") else none

theorem c6_token_lifecycle_witness :
    (validate_token c6Map "tok1" 100).1 = false ∧
    (validate_token c6Map "tok1" 100).2 "tok1" = none ∧
    (∀ now', (validate_token (validate_token c6Map "tok1" 100).2 "tok1" now').1 = false) :=
  c6_token_lifecycle.2.1 c6Map "tok1" 100 50 "alice" (by decide) (by decide)

/-- Claim C3: with authentication enabled, requests to the public paths
(root, health, token issuance, identity-provider callback, access-request
intake, documentation) pass straight through with no token check (the token
map is untouched), and for every other path the protected handler runs iff
the request carries an `Authorization: Bearer` header with a currently valid
token — otherwise the middleware answers 401. -/
theorem c3_auth_gate (tokens : TokenMap) (now : Int) (path : String)
    (hdr : Option String) :
    (path ∈ unprotectedPaths →
      auth_middleware true tokens now path hdr = (.passThrough, tokens)) ∧
    (path ∉ unprotectedPaths →
      ((auth_middleware true tokens now path hdr).1 = .passThrough ↔
        ∃ h, hdr = some h ∧ strStartsWithB h "Bearer " = true ∧
          (validate_token tokens (strTrim (strDropChars h 7)) now).1 = true)) := by
  constructor
  · intro hp
    unfold auth_middleware
    rw [if_pos (Or.inl hp)]
  · intro hp
    unfold auth_middleware
    rw [if_neg (by simp [hp])]
    cases hdr with
    | none =>
      constructor
      · intro hcontra; cases hcontra
      · rintro ⟨h, hh, _⟩; cases hh
    | some h =>
      dsimp only
      by_cases hbear : strStartsWithB h "Bearer " = true
      · rw [if_pos hbear]
        rcases hval : validate_token tokens (strTrim (strDropChars h 7)) now with ⟨b, m'⟩
        cases b
        · dsimp only
          constructor
          · intro hcontra; cases hcontra
          · rintro ⟨h', hh', _, hv⟩
            obtain rfl := Option.some.inj hh'
            rw [hval] at hv
            simp at hv
        · dsimp only
          exact iff_of_true rfl ⟨h, rfl, hbear, by rw [hval]⟩
      · rw [if_neg hbear]
        constructor
        · intro hcontra; cases hcontra
        · rintro ⟨h', hh', hb, _⟩
          obtain rfl := Option.some.inj hh'
          exact absurd hb hbear

def c3Tokens : TokenMap := fun _ => none

theorem c3_auth_gate_witness :
    auth_middleware true c3Tokens 0 "/healthz" none = (.passThrough, c3Tokens) ∧
    (auth_middleware true c3Tokens 0 "/lidar/tiles" none).1 ≠ .passThrough :=
  ⟨(c3_auth_gate c3Tokens 0 "/healthz" none).1 (by decide),
   fun hcontra => by
     obtain ⟨h, hh, _⟩ :=
       ((c3_auth_gate c3Tokens 0 "/lidar/tiles" none).2 (by decide)).mp hcontra
     cases hh⟩

/-! ### Proofs about the access-request throttle (C7) -/

lemma pairwise_le_getLast (l : List Int) (hs : l.Pairwise (· ≤ ·)) (a : Int)
    (hl : l.getLast? = some a) : ∀ t ∈ l, t ≤ a := by
  obtain ⟨l', rfl⟩ := List.getLast?_eq_some_iff.mp hl
  intro t ht
  rcases List.mem_append.mp ht with h | h
  · exact (List.pairwise_append.mp hs).2.2 t h a (by simp)
  · simp at h; omega

lemma filter_self_filter (l : List Int) (p : Int → Bool) :
    (l.filter p).filter p = l.filter p := by simp

lemma arKeyInv_init (W I : Int) (M : Nat) (now : Int) : ARKeyInv W I M now [] [] := by
  constructor <;> simp

lemma arKeyInv_advance {W I : Int} {M : Nat} {now now' : Int} {log admitted : List Int}
    (h : ARKeyInv W I M now log admitted) (hle : now ≤ now') :
    ARKeyInv W I M now' log admitted := by
  refine ⟨h.admSorted, h.gaps, h.logSorted,
    fun t ht => le_trans (h.logBound t ht) hle,
    fun t ht => le_trans (h.admBound t ht) hle, h.lastEq, ?_, h.logLen⟩
  refine (List.monotone_filter_right admitted ?_).trans h.winSub
  intro t ht2
  simp only [decide_eq_true_eq] at ht2 ⊢
  omega

lemma arKeyInv_admit {W I : Int} {M : Nat} {now : Int} {log admitted log' : List Int}
    (h : ARKeyInv W I M now log admitted) (hIW : I ≤ W)
    (hadm : arAdmitKey now W I M log = some log') :
    ARKeyInv W I M now log' (admitted ++ [now]) := by
  unfold arAdmitKey at hadm
  by_cases hint : arIntervalHit now I (arPrune now W log) = true
  · rw [if_pos hint] at hadm; cases hadm
  · rw [if_neg hint] at hadm
    by_cases hlen : M ≤ (arPrune now W log).length
    · rw [if_pos hlen] at hadm; cases hadm
    · rw [if_neg hlen] at hadm
      obtain rfl := (Option.some.inj hadm).symm
      have hsub : (arPrune now W log).Sublist log := List.filter_sublist log
      have hesorted : (arPrune now W log).Pairwise (· ≤ ·) := h.logSorted.sublist hsub
      have hebound : ∀ t ∈ arPrune now W log, t ≤ now :=
        fun t ht => h.logBound t (hsub.mem ht)
      -- every previously admitted time is at least I before now
      have hgapnow : ∀ a ∈ admitted, a + I ≤ now := by
        intro a ha
        cases hlast : admitted.getLast? with
        | none =>
          rw [List.getLast?_eq_none_iff] at hlast
          rw [hlast] at ha
          cases ha
        | some tstar =>
          have hats : a ≤ tstar := pairwise_le_getLast admitted h.admSorted tstar hlast a ha
          have hloglast : log.getLast? = some tstar := by rw [h.lastEq, hlast]
          by_cases hwin : now - tstar ≤ W
          · -- the last admitted time survives pruning, the interval check saw it
            obtain ⟨l', hl'⟩ := List.getLast?_eq_some_iff.mp hloglast
            have hprunelast : (arPrune now W log).getLast? = some tstar := by
              rw [hl']
              unfold arPrune
              rw [List.filter_append]
              have : List.filter (fun t => decide (now - t ≤ W)) [tstar] = [tstar] := by
                simp only [List.filter_cons, List.filter_nil]
                rw [if_pos (by simpa using hwin)]
              rw [this]
              simp
            unfold arIntervalHit at hint
            rw [hprunelast] at hint
            simp only [decide_eq_true_eq] at hint
            omega
          · -- the last admitted time is already outside the window, which is ≥ I wide
            omega
      refine ⟨?_, ?_, ?_, ?_, ?_, ?_, ?_, ?_⟩
      · rw [List.pairwise_append]
        exact ⟨h.admSorted, by simp, by
          intro a ha b hb
          simp only [List.mem_singleton] at hb
          subst hb
          exact h.admBound a ha⟩
      · rw [List.pairwise_append]
        exact ⟨h.gaps, by simp, by
          intro a ha b hb
          simp only [List.mem_singleton] at hb
          subst hb
          exact hgapnow a ha⟩
      · rw [List.pairwise_append]
        exact ⟨hesorted, by simp, by
          intro a ha b hb
          simp only [List.mem_singleton] at hb
          subst hb
          exact hebound a ha⟩
      · intro t ht
        rcases List.mem_append.mp ht with hin | hin
        · exact hebound t hin
        · simp at hin; omega
      · intro t ht
        rcases List.mem_append.mp ht with hin | hin
        · exact le_trans (h.admBound t hin) (le_refl now)
        · simp at hin; omega
      · simp
      · rw [List.filter_append]
        refine List.Sublist.append ?_ (List.filter_sublist _)
        have h1 : ((admitted.filter (fun t => decide (now - t ≤ W))).filter
            (fun t => decide (now - t ≤ W))).Sublist
            (log.filter (fun t => decide (now - t ≤ W))) :=
          h.winSub.filter _
        rw [filter_self_filter] at h1
        exact h1
      · rw [List.length_append]
        simp only [List.length_singleton]
        omega

lemma requestThrottle_reject_state {W I : Int} {Mip Mem : Nat} {s : ARState}
    {ip email : String} {now : Int}
    (h : (requestThrottle W I Mip Mem s ip email now).1 = false) :
    (requestThrottle W I Mip Mem s ip email now).2 = s := by
  unfold requestThrottle at h ⊢
  cases hip : arAdmitKey now W I Mip (s.ipLog ip) with
  | none => rfl
  | some lip =>
    rw [hip] at h
    cases hem : arAdmitKey now W I Mem (s.emailLog (strToLower email)) with
    | none => rfl
    | some lem =>
      rw [hem] at h
      exact absurd h (by simp)

lemma admittedIpTimes_cons (sub : Submission) (ok : Bool)
    (tr : List (Submission × Bool)) (ip : String) :
    admittedIpTimes ((sub, ok) :: tr) ip =
      (if ok = true ∧ sub.ip = ip then [sub.time] else []) ++ admittedIpTimes tr ip := by
  unfold admittedIpTimes
  rw [List.filter_cons]
  by_cases hok : ok = true <;> by_cases hip : sub.ip = ip <;> simp [hok, hip]

lemma admittedEmailTimes_cons (sub : Submission) (ok : Bool)
    (tr : List (Submission × Bool)) (em : String) :
    admittedEmailTimes ((sub, ok) :: tr) em =
      (if ok = true ∧ strToLower sub.email = em then [sub.time] else []) ++
        admittedEmailTimes tr em := by
  unfold admittedEmailTimes
  rw [List.filter_cons]
  by_cases hok : ok = true <;> by_cases hem : strToLower sub.email = em <;> simp [hok, hem]

lemma arRun_inv (W I : Int) (Mip Mem : Nat) (hIW : I ≤ W) :
    ∀ (subs : List Submission) (s : ARState) (admIp admEm : String → List Int)
      (now0 : Int),
    (∀ k, ARKeyInv W I Mip now0 (s.ipLog k) (admIp k)) →
    (∀ k, ARKeyInv W I Mem now0 (s.emailLog k) (admEm k)) →
    (∀ sub ∈ subs, now0 ≤ sub.time) →
    subs.Pairwise (fun a b => a.time ≤ b.time) →
    ∀ now', now0 ≤ now' → (∀ sub ∈ subs, sub.time ≤ now') →
    (∀ k, ARKeyInv W I Mip now' (((arRun W I Mip Mem s subs).2).ipLog k)
        (admIp k ++ admittedIpTimes (arRun W I Mip Mem s subs).1 k)) ∧
    (∀ k, ARKeyInv W I Mem now' (((arRun W I Mip Mem s subs).2).emailLog k)
        (admEm k ++ admittedEmailTimes (arRun W I Mip Mem s subs).1 k)) := by
  intro subs
  induction subs with
  | nil =>
    intro s admIp admEm now0 hIp hEm _ _ now' hle _
    refine ⟨fun k => ?_, fun k => ?_⟩
    · simpa [arRun, admittedIpTimes] using arKeyInv_advance (hIp k) hle
    · simpa [arRun, admittedEmailTimes] using arKeyInv_advance (hEm k) hle
  | cons sub rest ih =>
    intro s admIp admEm now0 hIp hEm hfirst hsort now' hle hall
    have hnow0t : now0 ≤ sub.time := hfirst sub (List.mem_cons_self _ _)
    have hrestfirst : ∀ s' ∈ rest, sub.time ≤ s'.time := by
      intro s' hs'
      exact (List.pairwise_cons.mp hsort).1 s' hs'
    have hrestsort : rest.Pairwise (fun a b => a.time ≤ b.time) :=
      (List.pairwise_cons.mp hsort).2
    have hrestall : ∀ s' ∈ rest, s'.time ≤ now' :=
      fun s' hs' => hall s' (List.mem_cons_of_mem _ hs')
    have htlenow' : sub.time ≤ now' := hall sub (List.mem_cons_self _ _)
    rcases hstep : requestThrottle W I Mip Mem s sub.ip sub.email sub.time with ⟨ok, s'⟩
    have harr0 : arRun W I Mip Mem s (sub :: rest) =
        match requestThrottle W I Mip Mem s sub.ip sub.email sub.time with
        | (ok, s') =>
          match arRun W I Mip Mem s' rest with
          | (tr, sfin) => ((sub, ok) :: tr, sfin) := rfl
    have hrun1 : (arRun W I Mip Mem s (sub :: rest)).1 =
        (sub, ok) :: (arRun W I Mip Mem s' rest).1 := by
      rw [harr0, hstep]
    have hrun2 : (arRun W I Mip Mem s (sub :: rest)).2 =
        (arRun W I Mip Mem s' rest).2 := by
      rw [harr0, hstep]
    cases ok with
    | false =>
      have hs'eq : s' = s := by
        have h2 := requestThrottle_reject_state
          (show (requestThrottle W I Mip Mem s sub.ip sub.email sub.time).1 = false by
            rw [hstep])
        rw [hstep] at h2
        simpa using h2
      subst hs'eq
      have hrec := ih s' admIp admEm sub.time
        (fun k => arKeyInv_advance (hIp k) hnow0t)
        (fun k => arKeyInv_advance (hEm k) hnow0t)
        hrestfirst hrestsort now' htlenow' hrestall
      refine ⟨fun k => ?_, fun k => ?_⟩
      · rw [hrun1, hrun2, admittedIpTimes_cons]
        simpa using (hrec.1 k)
      · rw [hrun1, hrun2, admittedEmailTimes_cons]
        simpa using (hrec.2 k)
    | true =>
      -- extract the two successful key admissions
      have hdetail : ∃ lip lem,
          arAdmitKey sub.time W I Mip (s.ipLog sub.ip) = some lip ∧
          arAdmitKey sub.time W I Mem (s.emailLog (strToLower sub.email)) = some lem ∧
          s' = ⟨Function.update s.ipLog sub.ip lip,
            Function.update s.emailLog (strToLower sub.email) lem⟩ := by
        unfold requestThrottle at hstep
        cases hip : arAdmitKey sub.time W I Mip (s.ipLog sub.ip) with
        | none => rw [hip] at hstep; cases hstep
        | some lip =>
          rw [hip] at hstep
          cases hem : arAdmitKey sub.time W I Mem (s.emailLog (strToLower sub.email)) with
          | none => rw [hem] at hstep; cases hstep
          | some lem =>
            rw [hem] at hstep
            dsimp only at hstep
            exact ⟨lip, lem, rfl, rfl, (Prod.ext_iff.mp hstep).2.symm⟩
      obtain ⟨lip, lem, hipadm, hemadm, hs'eq⟩ := hdetail
      have hIp' : ∀ k, ARKeyInv W I Mip sub.time (s'.ipLog k)
          (admIp k ++ (if sub.ip = k then [sub.time] else [])) := by
        intro k
        rw [hs'eq]
        by_cases hk : sub.ip = k
        · subst hk
          rw [if_pos rfl]
          show ARKeyInv W I Mip sub.time (Function.update s.ipLog sub.ip lip sub.ip) _
          rw [Function.update_same]
          exact arKeyInv_admit (arKeyInv_advance (hIp sub.ip) hnow0t) hIW hipadm
        · rw [if_neg hk, List.append_nil]
          show ARKeyInv W I Mip sub.time (Function.update s.ipLog sub.ip lip k) _
          rw [Function.update_noteq (fun hcontra => hk hcontra.symm)]
          exact arKeyInv_advance (hIp k) hnow0t
      have hEm' : ∀ k, ARKeyInv W I Mem sub.time (s'.emailLog k)
          (admEm k ++ (if strToLower sub.email = k then [sub.time] else [])) := by
        intro k
        rw [hs'eq]
        by_cases hk : strToLower sub.email = k
        · subst hk
          rw [if_pos rfl]
          show ARKeyInv W I Mem sub.time
            (Function.update s.emailLog (strToLower sub.email) lem (strToLower sub.email)) _
          rw [Function.update_same]
          exact arKeyInv_admit (arKeyInv_advance (hEm _) hnow0t) hIW hemadm
        · rw [if_neg hk, List.append_nil]
          show ARKeyInv W I Mem sub.time
            (Function.update s.emailLog (strToLower sub.email) lem k) _
          rw [Function.update_noteq (fun hcontra => hk hcontra.symm)]
          exact arKeyInv_advance (hEm k) hnow0t
      have hrec := ih s'
        (fun k => admIp k ++ (if sub.ip = k then [sub.time] else []))
        (fun k => admEm k ++ (if strToLower sub.email = k then [sub.time] else []))
        sub.time hIp' hEm' hrestfirst hrestsort now' htlenow' hrestall
      refine ⟨fun k => ?_, fun k => ?_⟩
      · rw [hrun1, hrun2, admittedIpTimes_cons]
        have hthis := hrec.1 k
        by_cases hk : sub.ip = k
        · simpa [hk, List.append_assoc] using hthis
        · simpa [hk] using hthis
      · rw [hrun1, hrun2, admittedEmailTimes_cons]
        have hthis := hrec.2 k
        by_cases hk : strToLower sub.email = k
        · simpa [hk, List.append_assoc] using hthis
        · simpa [hk] using hthis

/-- Claim C7: with interval `I ≤ W` (the deployed configuration has
`I = 30 ≤ 3600 = W`) and submissions arriving in time order, at any moment
`now'` after the submissions the number of admitted submissions within the
sliding window `W` is at most `Mip` for every single client IP and at most
`Mem` for every normalized (lowercased) email, any two admitted submissions
with the same IP or same normalized email are at least `I` apart, and a
submission is rejected (RATE_LIMITED) exactly when one of the per-key checks
(window count or minimum interval) fails. -/
theorem c7_access_throttle (W I : Int) (Mip Mem : Nat) (hIW : I ≤ W)
    (subs : List Submission)
    (hsort : subs.Pairwise (fun a b => a.time ≤ b.time))
    (now' : Int) (hnow' : ∀ sub ∈ subs, sub.time ≤ now') :
    (∀ ip : String,
      ((admittedIpTimes (arRun W I Mip Mem arInitState subs).1 ip).filter
        (fun t => decide (now' - t ≤ W))).length ≤ Mip ∧
      (admittedIpTimes (arRun W I Mip Mem arInitState subs).1 ip).Pairwise
        (fun a b => a + I ≤ b)) ∧
    (∀ em : String,
      ((admittedEmailTimes (arRun W I Mip Mem arInitState subs).1 em).filter
        (fun t => decide (now' - t ≤ W))).length ≤ Mem ∧
      (admittedEmailTimes (arRun W I Mip Mem arInitState subs).1 em).Pairwise
        (fun a b => a + I ≤ b)) ∧
    (∀ (s : ARState) (ip email : String) (t : Int),
      (requestThrottle W I Mip Mem s ip email t).1 = false ↔
        arAdmitKey t W I Mip (s.ipLog ip) = none ∨
        arAdmitKey t W I Mem (s.emailLog (strToLower email)) = none) := by
  have hmain : ∀ now0, now0 ≤ now' → (∀ sub ∈ subs, now0 ≤ sub.time) →
      (∀ k, ARKeyInv W I Mip now' ((arRun W I Mip Mem arInitState subs).2.ipLog k)
        (admittedIpTimes (arRun W I Mip Mem arInitState subs).1 k)) ∧
      (∀ k, ARKeyInv W I Mem now' ((arRun W I Mip Mem arInitState subs).2.emailLog k)
        (admittedEmailTimes (arRun W I Mip Mem arInitState subs).1 k)) := by
    intro now0 h1 h2
    have hinv := arRun_inv W I Mip Mem hIW subs arInitState
      (fun _ => []) (fun _ => []) now0
      (fun _ => arKeyInv_init W I Mip now0) (fun _ => arKeyInv_init W I Mem now0)
      h2 hsort now' h1 hnow'
    simpa using hinv
  have hkey :
      (∀ k, ARKeyInv W I Mip now' ((arRun W I Mip Mem arInitState subs).2.ipLog k)
        (admittedIpTimes (arRun W I Mip Mem arInitState subs).1 k)) ∧
      (∀ k, ARKeyInv W I Mem now' ((arRun W I Mip Mem arInitState subs).2.emailLog k)
        (admittedEmailTimes (arRun W I Mip Mem arInitState subs).1 k)) := by
    cases subs with
    | nil => exact hmain now' le_rfl (by simp)
    | cons sub rest =>
      refine hmain sub.time (hnow' sub (List.mem_cons_self _ _)) ?_
      intro sub' hs'
      rcases List.mem_cons.mp hs' with heq | hmem
      · rw [heq]
      · exact (List.pairwise_cons.mp hsort).1 sub' hmem
  refine ⟨fun ip => ⟨?_, ?_⟩, fun em => ⟨?_, ?_⟩, ?_⟩
  · exact le_trans (hkey.1 ip).winSub.length_le (hkey.1 ip).logLen
  · exact (hkey.1 ip).gaps
  · exact le_trans (hkey.2 em).winSub.length_le (hkey.2 em).logLen
  · exact (hkey.2 em).gaps
  · intro s ip email t
    unfold requestThrottle
    cases hip : arAdmitKey t W I Mip (s.ipLog ip) with
    | none => exact iff_of_true rfl (Or.inl rfl)
    | some lip =>
      cases hem : arAdmitKey t W I Mem (s.emailLog (strToLower email)) with
      | none => exact iff_of_true rfl (Or.inr rfl)
      | some lem => exact iff_of_false (by simp) (by simp)

def c7Subs : List Submission :=
  [⟨0, "ip1", "A@x.se"⟩, ⟨10, "ip2", "a@x.se"⟩, ⟨45, "ip1", "b@y.se"⟩]

theorem c7_access_throttle_witness :
    ((admittedIpTimes (arRun 3600 30 5 3 arInitState c7Subs).1 "ip1").filter
      (fun t => decide ((100 : Int) - t ≤ 3600))).length ≤ 5 ∧
    (admittedIpTimes (arRun 3600 30 5 3 arInitState c7Subs).1 "ip1").Pairwise
      (fun a b => a + 30 ≤ b) ∧
    admittedIpTimes (arRun 3600 30 5 3 arInitState c7Subs).1 "ip1" = [0, 45] ∧
    admittedEmailTimes (arRun 3600 30 5 3 arInitState c7Subs).1 "a@x.se" = [0] :=
  ⟨((c7_access_throttle 3600 30 5 3 (by decide) c7Subs (by decide) 100 (by decide)).1 "ip1").1,
   ((c7_access_throttle 3600 30 5 3 (by decide) c7Subs (by decide) 100 (by decide)).1 "ip1").2,
   by decide, by decide⟩

/-! ### Proofs about access-request intake (C10, C9) -/

/-- Claim C10: every rejected access-request submission (413 for an oversized
body, 400 for an invalid name, surname, email or GitHub username, 429 from
the throttle) leaves the intake state unchanged — neither throttle log is
modified — and writes nothing to the durable log, so a rejected request never
consumes quota of later requests. -/
theorem c10_rejection_no_side_effects (maxBody : Nat) (W I : Int) (Mip Mem : Nat)
    (s : ARState) (req : AccessReqInput) (contentLength : Nat) (ip : String)
    (now : Int) (persistOk : Bool)
    (hrej : (request_access maxBody W I Mip Mem s req contentLength ip now persistOk).1 =
        .payloadTooLarge ∨
      (request_access maxBody W I Mip Mem s req contentLength ip now persistOk).1 =
        .badRequest ∨
      (request_access maxBody W I Mip Mem s req contentLength ip now persistOk).1 =
        .rateLimited) :
    (request_access maxBody W I Mip Mem s req contentLength ip now persistOk).2.1 = s ∧
    (request_access maxBody W I Mip Mem s req contentLength ip now persistOk).2.2 = [] := by
  unfold request_access at hrej ⊢
  split_ifs at hrej ⊢
  · exact ⟨rfl, rfl⟩
  · exact ⟨rfl, rfl⟩
  · exact ⟨rfl, rfl⟩
  · exact ⟨rfl, rfl⟩
  · exact ⟨rfl, rfl⟩
  · exact ⟨rfl, rfl⟩
  · rcases hstep : requestThrottle W I Mip Mem s ip (strTrim req.email) now with ⟨ok, s'⟩
    cases ok with
    | false =>
      refine ⟨?_, rfl⟩
      have h2 := requestThrottle_reject_state
        (show (requestThrottle W I Mip Mem s ip (strTrim req.email) now).1 = false by
          rw [hstep])
      rw [hstep] at h2
      exact h2
    | true => rw [hstep] at hrej; simp at hrej
  · rcases hstep : requestThrottle W I Mip Mem s ip (strTrim req.email) now with ⟨ok, s'⟩
    cases ok with
    | false =>
      refine ⟨?_, rfl⟩
      have h2 := requestThrottle_reject_state
        (show (requestThrottle W I Mip Mem s ip (strTrim req.email) now).1 = false by
          rw [hstep])
      rw [hstep] at h2
      exact h2
    | true => rw [hstep] at hrej; simp at hrej

theorem c10_rejection_no_side_effects_witness :
    (request_access 2048 3600 30 5 3 arInitState
      ⟨"Anna", "Berg", "not-an-email", "anna"⟩ 120 "1.2.3.4" 100 true).2.2 = [] ∧
    (request_access 2048 3600 30 5 3 arInitState
      ⟨"Anna", "Berg", "not-an-email", "anna"⟩ 120 "1.2.3.4" 100 true).1 = .badRequest :=
  ⟨(c10_rejection_no_side_effects 2048 3600 30 5 3 arInitState
      ⟨"Anna", "Berg", "not-an-email", "anna"⟩ 120 "1.2.3.4" 100 true
      (Or.inr (Or.inl (by decide)))).2, by decide⟩

/-- Claim C9, divergence: the persistence path of the access-request endpoint
performs no `fsync` and no rename anywhere (its filesystem trace is exactly
open-append / write / close), yet a valid submission is answered 200
(`accepted`); a failed append yields INTERNAL, never `accepted`.  So the
durability half of the claim — a 200 response implies the record was fsynced
or crash-safely renamed into place — is violated by the code. -/
theorem c9_no_fsync_divergence :
    (∀ directory line p, FsOp.fsync p ∉ append_access_request_ops directory line) ∧
    (∀ directory line a b, FsOp.rename a b ∉ append_access_request_ops directory line) ∧
    (request_access 2048 3600 30 5 3 arInitState
      ⟨"Anna", "Berg", "a@b.se", "anna"⟩ 60 "1.2.3.4" 100 true).1 = .accepted ∧
    (∀ (maxBody : Nat) (W I : Int) (Mip Mem : Nat) (s : ARState)
      (req : AccessReqInput) (contentLength : Nat) (ip : String) (now : Int),
      (request_access maxBody W I Mip Mem s req contentLength ip now false).1 ≠
        .accepted) := by
  refine ⟨?_, ?_, by decide, ?_⟩
  · intro directory line p hmem
    simp [append_access_request_ops] at hmem
  · intro directory line a b hmem
    simp [append_access_request_ops] at hmem
  · intro maxBody W I Mip Mem s req contentLength ip now
    unfold request_access
    split_ifs with h1 h2 h3 h4 h5 h6 h7
    · simp
    · simp
    · simp
    · simp
    · simp
    · simp
    · exact h7.elim
    · rcases requestThrottle W I Mip Mem s ip (strTrim req.email) now with ⟨ok, s'⟩
      cases ok
      · intro hc; exact AccessOutcome.noConfusion hc
      · intro hc; exact AccessOutcome.noConfusion hc

/-! ### Proofs about the local atlas update (C8) -/

lemma charListLt_irrefl : ∀ a : List Char, charListLt a a = false := by
  intro a
  induction a with
  | nil => rfl
  | cons c cs ih =>
    unfold charListLt
    rw [if_neg (lt_irrefl c), if_neg (lt_irrefl c)]
    exact ih

lemma charListLt_trans : ∀ a b c : List Char,
    charListLt a b = true → charListLt b c = true → charListLt a c = true := by
  intro a
  induction a with
  | nil =>
    intro b c h1 h2
    cases b with
    | nil => cases h1
    | cons b0 bs =>
      cases c with
      | nil => cases h2
      | cons c0 cs => rfl
  | cons a0 as ih =>
    intro b c h1 h2
    cases b with
    | nil => cases h1
    | cons b0 bs =>
      cases c with
      | nil => cases h2
      | cons c0 cs =>
        unfold charListLt at h1 h2 ⊢
        by_cases hab : a0 < b0
        · by_cases hbc : b0 < c0
          · rw [if_pos (lt_trans hab hbc)]
          · rw [if_neg hbc] at h2
            by_cases hcb : c0 < b0
            · rw [if_pos hcb] at h2; cases h2
            · have hbceq : b0 = c0 := by
                rcases lt_trichotomy b0 c0 with h | h | h
                · exact absurd h hbc
                · exact h
                · exact absurd h hcb
              rw [if_pos (hbceq ▸ hab)]
        · rw [if_neg hab] at h1
          by_cases hba : b0 < a0
          · rw [if_pos hba] at h1; cases h1
          · rw [if_neg hba] at h1
            have habeq : a0 = b0 := by
              rcases lt_trichotomy a0 b0 with h | h | h
              · exact absurd h hab
              · exact h
              · exact absurd h hba
            by_cases hbc : b0 < c0
            · rw [if_pos (habeq ▸ hbc)]
            · rw [if_neg hbc] at h2
              by_cases hcb : c0 < b0
              · rw [if_pos hcb] at h2; cases h2
              · rw [if_neg hcb] at h2
                rw [if_neg (habeq ▸ hbc), if_neg (fun hc => hcb (habeq ▸ hc))]
                exact ih bs cs h1 h2

lemma charListLt_trichotomy : ∀ a b : List Char,
    charListLt a b = true ∨ charListLt b a = true ∨ a = b := by
  intro a
  induction a with
  | nil =>
    intro b
    cases b with
    | nil => exact Or.inr (Or.inr rfl)
    | cons b0 bs => exact Or.inl rfl
  | cons a0 as ih =>
    intro b
    cases b with
    | nil => exact Or.inr (Or.inl rfl)
    | cons b0 bs =>
      unfold charListLt
      rcases lt_trichotomy a0 b0 with h | h | h
      · rw [if_pos h]
        exact Or.inl rfl
      · subst h
        rw [if_neg (lt_irrefl a0), if_neg (lt_irrefl a0), if_neg (lt_irrefl a0),
          if_neg (lt_irrefl a0)]
        rcases ih bs with h | h | h
        · exact Or.inl h
        · exact Or.inr (Or.inl h)
        · exact Or.inr (Or.inr (by rw [h]))
      · rw [if_neg (lt_asymm h), if_pos h, if_pos h]
        exact Or.inr (Or.inl rfl)

lemma pyStrLt_asymm {a b : String} (h : pyStrLt a b = true) : pyStrLt b a = false := by
  unfold pyStrLt at h ⊢
  by_contra hcontra
  have hba : charListLt b.data a.data = true := by
    revert hcontra; cases charListLt b.data a.data <;> simp
  have := charListLt_trans a.data b.data a.data h hba
  rw [charListLt_irrefl] at this
  cases this

lemma pyStrLt_notlt_trans {a b c : String} (h1 : pyStrLt b a = false)
    (h2 : pyStrLt c b = false) : pyStrLt c a = false := by
  unfold pyStrLt at h1 h2 ⊢
  by_contra hcontra
  have hca : charListLt c.data a.data = true := by
    revert hcontra; cases charListLt c.data a.data <;> simp
  rcases charListLt_trichotomy a.data b.data with hab | hba | heq
  · rcases charListLt_trichotomy b.data c.data with hbc | hcb | heq2
    · have := charListLt_trans b.data c.data a.data hbc hca
      rw [this] at h1; cases h1
    · rw [hcb] at h2; cases h2
    · rw [heq2] at h1
      rw [hca] at h1
      cases h1
  · rw [hba] at h1; cases h1
  · rw [← heq] at h2
    rw [hca] at h2
    cases h2

/-- The sortedness relation produced by the catalog sort: the later entry's
key is not smaller than the earlier entry's key. -/
def keyOrdered {α : Type} (p q : String × α) : Prop := pyStrLt q.1 p.1 = false

lemma insertByKey_perm {α : Type} (p : String × α) :
    ∀ l : List (String × α), (insertByKey p l).Perm (p :: l) := by
  intro l
  induction l with
  | nil => exact List.Perm.refl _
  | cons q qs ih =>
    unfold insertByKey
    by_cases h : pyStrLt q.1 p.1 = true
    · rw [if_pos h]
      exact (List.Perm.cons q ih).trans (List.Perm.swap p q qs)
    · rw [if_neg h]

lemma sortByKey_perm {α : Type} (l : List (String × α)) : (sortByKey l).Perm l := by
  unfold sortByKey
  induction l with
  | nil => exact List.Perm.refl _
  | cons p ps ih =>
    rw [List.foldr_cons]
    exact (insertByKey_perm p _).trans (List.Perm.cons p ih)

lemma insertByKey_pairwise {α : Type} (p : String × α) :
    ∀ l : List (String × α), l.Pairwise keyOrdered →
    (insertByKey p l).Pairwise keyOrdered := by
  intro l
  induction l with
  | nil => intro _; exact List.pairwise_singleton _ _
  | cons q qs ih =>
    intro hl
    obtain ⟨hq, hqs⟩ := List.pairwise_cons.mp hl
    unfold insertByKey
    by_cases h : pyStrLt q.1 p.1 = true
    · rw [if_pos h]
      rw [List.pairwise_cons]
      refine ⟨?_, ih hqs⟩
      intro r hr
      have hr' := (insertByKey_perm p qs).mem_iff.mp hr
      rcases List.mem_cons.mp hr' with heq | hmem
      · subst heq
        exact pyStrLt_asymm h
      · exact hq r hmem
    · rw [if_neg h]
      rw [List.pairwise_cons]
      have hqp : pyStrLt q.1 p.1 = false := by
        revert h; cases pyStrLt q.1 p.1 <;> simp
      refine ⟨?_, hl⟩
      intro r hr
      rcases List.mem_cons.mp hr with heq | hmem
      · subst heq
        exact hqp
      · exact pyStrLt_notlt_trans hqp (hq r hmem)

lemma sortByKey_pairwise {α : Type} (l : List (String × α)) :
    (sortByKey l).Pairwise keyOrdered := by
  unfold sortByKey
  induction l with
  | nil => exact List.Pairwise.nil
  | cons p ps ih =>
    rw [List.foldr_cons]
    exact insertByKey_pairwise p _ ih

lemma lookupKey_none_iff {α : Type} : ∀ (d : List (String × α)) (k : String),
    lookupKey d k = none ↔ k ∉ d.map Prod.fst := by
  intro d k
  induction d with
  | nil => simp [lookupKey]
  | cons p rest ih =>
    obtain ⟨k', v⟩ := p
    unfold lookupKey
    by_cases h : k' = k
    · subst h; simp
    · rw [if_neg h]
      simp [ih, Ne.symm h]

lemma lookupKey_some_mem {α : Type} : ∀ (d : List (String × α)) (k : String) (v : α),
    lookupKey d k = some v → (k, v) ∈ d := by
  intro d k v
  induction d with
  | nil => intro h; cases h
  | cons p rest ih =>
    obtain ⟨k', v'⟩ := p
    intro h
    unfold lookupKey at h
    by_cases hk : k' = k
    · rw [if_pos hk] at h
      obtain rfl := Option.some.inj h
      subst hk
      exact List.mem_cons_self _ _
    · rw [if_neg hk] at h
      exact List.mem_cons_of_mem _ (ih h)

lemma mem_lookupKey_of_nodup {α : Type} : ∀ (d : List (String × α)) (k : String) (v : α),
    (d.map Prod.fst).Nodup → (k, v) ∈ d → lookupKey d k = some v := by
  intro d k v
  induction d with
  | nil => intro _ hm; cases hm
  | cons p rest ih =>
    obtain ⟨k', v'⟩ := p
    intro hn hm
    rw [List.map_cons, List.nodup_cons] at hn
    unfold lookupKey
    rcases List.mem_cons.mp hm with heq | hmem
    · obtain ⟨h1, h2⟩ := Prod.mk.injEq .. ▸ heq
      rw [if_pos h1.symm]
      rw [h2]
    · by_cases hk : k' = k
      · subst hk
        exact absurd (List.mem_map.mpr ⟨(k', v), hmem, rfl⟩) hn.1
      · rw [if_neg hk]
        exact ih hn.2 hmem

lemma lookupKey_perm {α : Type} {l l' : List (String × α)} (hp : l.Perm l')
    (hn : (l.map Prod.fst).Nodup) (k : String) :
    lookupKey l k = lookupKey l' k := by
  have hn' : (l'.map Prod.fst).Nodup := (hp.map Prod.fst).nodup_iff.mp hn
  cases h : lookupKey l k with
  | some v =>
    rw [mem_lookupKey_of_nodup l' k v hn' (hp.mem_iff.mp (lookupKey_some_mem l k v h))]
  | none =>
    cases h' : lookupKey l' k with
    | none => rfl
    | some v =>
      have hmem : (k, v) ∈ l := hp.mem_iff.mpr (lookupKey_some_mem l' k v h')
      rw [mem_lookupKey_of_nodup l k v hn hmem] at h
      cases h

lemma lookupKey_append_some {α : Type} : ∀ (d d' : List (String × α)) (k : String) (v : α),
    lookupKey d k = some v → lookupKey (d ++ d') k = some v := by
  intro d d' k v
  induction d with
  | nil => intro h; cases h
  | cons p rest ih =>
    obtain ⟨k', v'⟩ := p
    intro h
    simp only [lookupKey] at h
    simp only [List.cons_append, lookupKey]
    by_cases hk : k' = k
    · rw [if_pos hk] at h
      rw [if_pos hk]
      exact h
    · rw [if_neg hk] at h
      rw [if_neg hk]
      exact ih h

lemma lookupKey_append_none {α : Type} : ∀ (d d' : List (String × α)) (k : String),
    lookupKey d k = none → lookupKey (d ++ d') k = lookupKey d' k := by
  intro d d' k
  induction d with
  | nil => intro _; rfl
  | cons p rest ih =>
    obtain ⟨k', v'⟩ := p
    intro h
    simp only [lookupKey] at h
    simp only [List.cons_append, lookupKey]
    by_cases hk : k' = k
    · rw [if_pos hk] at h; cases h
    · rw [if_neg hk] at h
      rw [if_neg hk]
      exact ih h

lemma lookupKey_map_values {α β : Type} (g : α → β) :
    ∀ (d : List (String × α)) (k : String),
    lookupKey (d.map (fun p => (p.1, g p.2))) k = (lookupKey d k).map g := by
  intro d k
  induction d with
  | nil => rfl
  | cons p rest ih =>
    obtain ⟨k', v⟩ := p
    simp only [List.map_cons, lookupKey]
    by_cases hk : k' = k
    · rw [if_pos hk, if_pos hk]
      rfl
    · rw [if_neg hk, if_neg hk]
      exact ih

lemma upsertMap_lookup_self {α : Type} (k : String) (v : α) :
    ∀ d : List (String × α), k ∈ d.map Prod.fst →
    lookupKey (d.map (fun p => if p.1 = k then (k, v) else p)) k = some v := by
  intro d
  induction d with
  | nil => intro h; cases h
  | cons p rest ih =>
    obtain ⟨k', v'⟩ := p
    intro hmem
    by_cases hk : k' = k
    · subst hk
      simp only [List.map_cons]
      rw [if_pos trivial]
      simp only [lookupKey]
      rw [if_pos trivial]
    · simp only [List.map_cons]
      rw [if_neg hk]
      simp only [lookupKey]
      rw [if_neg hk]
      refine ih ?_
      rcases List.mem_cons.mp hmem with heq | h
      · exact absurd heq.symm hk
      · exact h

lemma upsertMap_lookup_other {α : Type} (k k' : String) (v : α) (hne : k' ≠ k) :
    ∀ d : List (String × α),
    lookupKey (d.map (fun p => if p.1 = k then (k, v) else p)) k' = lookupKey d k' := by
  intro d
  induction d with
  | nil => rfl
  | cons p rest ih =>
    obtain ⟨k0, v0⟩ := p
    simp only [List.map_cons]
    by_cases hk : k0 = k
    · subst hk
      rw [if_pos rfl]
      simp only [lookupKey]
      rw [if_neg (fun hc => hne hc.symm), if_neg (fun hc => hne hc.symm)]
      exact ih
    · rw [if_neg hk]
      simp only [lookupKey]
      by_cases h0 : k0 = k'
      · rw [if_pos h0, if_pos h0]
      · rw [if_neg h0, if_neg h0]
        exact ih

lemma dictUpsert_lookup_self {α : Type} (d : List (String × α)) (k : String) (v : α) :
    lookupKey (dictUpsert d k v) k = some v := by
  unfold dictUpsert
  by_cases hc : (d.map Prod.fst).contains k = true
  · rw [if_pos hc]
    exact upsertMap_lookup_self k v d (List.elem_iff.mp hc)
  · rw [if_neg hc]
    have hnone : lookupKey d k = none := by
      rw [lookupKey_none_iff]
      intro hmem
      exact hc (List.elem_iff.mpr hmem)
    rw [lookupKey_append_none d _ k hnone]
    unfold lookupKey
    rw [if_pos rfl]

lemma dictUpsert_lookup_other {α : Type} (d : List (String × α)) (k k' : String) (v : α)
    (hne : k' ≠ k) :
    lookupKey (dictUpsert d k v) k' = lookupKey d k' := by
  unfold dictUpsert
  by_cases hc : (d.map Prod.fst).contains k = true
  · rw [if_pos hc]
    exact upsertMap_lookup_other k k' v hne d
  · rw [if_neg hc]
    cases hlk : lookupKey d k' with
    | some w => rw [lookupKey_append_some d _ k' w hlk]
    | none =>
      rw [lookupKey_append_none d _ k' hlk]
      unfold lookupKey
      rw [if_neg (fun hc2 => hne hc2.symm)]
      rfl

lemma dictUpsert_keys_nodup {α : Type} (d : List (String × α)) (k : String) (v : α)
    (hn : (d.map Prod.fst).Nodup) : ((dictUpsert d k v).map Prod.fst).Nodup := by
  unfold dictUpsert
  by_cases hc : (d.map Prod.fst).contains k = true
  · rw [if_pos hc]
    have hkeys : (d.map (fun p => if p.1 = k then (k, v) else p)).map Prod.fst =
        d.map Prod.fst := by
      rw [List.map_map]
      refine List.map_congr_left ?_
      intro p _
      by_cases hp : p.1 = k
      · simp [hp]
      · simp [hp]
    rw [hkeys]
    exact hn
  · rw [if_neg hc, List.map_append]
    have hk : k ∉ d.map Prod.fst := fun hmem => hc (List.elem_iff.mpr hmem)
    simp [List.nodup_append, hn, hk]

lemma dictUpsert_mem {α : Type} (d : List (String × α)) (k : String) (v : α)
    (p : String × α) (hp : p ∈ dictUpsert d k v) : p = (k, v) ∨ p ∈ d := by
  unfold dictUpsert at hp
  by_cases hc : (d.map Prod.fst).contains k = true
  · rw [if_pos hc] at hp
    obtain ⟨q, hq, heq⟩ := List.mem_map.mp hp
    by_cases hqk : q.1 = k
    · rw [if_pos hqk] at heq
      exact Or.inl heq.symm
    · rw [if_neg hqk] at heq
      exact Or.inr (heq ▸ hq)
  · rw [if_neg hc] at hp
    rcases List.mem_append.mp hp with h | h
    · exact Or.inr h
    · simp at h
      exact Or.inl (by rw [h])

lemma nestedUpsert_preserves (d : NestedAtlas) (xk yk xk' yk' : String) (v e : AtlasEntry)
    (hsome : lookup2 d xk yk = some e) :
    lookup2 (nestedUpsert d xk' yk' v) xk yk =
      some (if xk = xk' ∧ yk = yk' then v else e) := by
  unfold nestedUpsert
  cases houter : lookupKey d xk' with
  | some inner =>
    unfold lookup2 at hsome ⊢
    by_cases hx : xk = xk'
    · subst hx
      rw [houter] at hsome
      dsimp only at hsome
      rw [dictUpsert_lookup_self]
      dsimp only
      by_cases hy : yk = yk'
      · subst hy
        rw [dictUpsert_lookup_self]
        simp
      · rw [dictUpsert_lookup_other inner yk' yk v hy, hsome]
        simp [hy]
    · rw [dictUpsert_lookup_other d xk' xk _ hx]
      cases hlk : lookupKey d xk with
      | none => rw [hlk] at hsome; cases hsome
      | some inner2 =>
        rw [hlk] at hsome
        dsimp only at hsome
        dsimp only
        rw [hsome]
        simp [hx]
  | none =>
    unfold lookup2 at hsome ⊢
    by_cases hx : xk = xk'
    · subst hx
      rw [houter] at hsome
      dsimp only at hsome
      cases hsome
    · cases hlk : lookupKey d xk with
      | none => rw [hlk] at hsome; cases hsome
      | some inner2 =>
        rw [hlk] at hsome
        dsimp only at hsome
        rw [lookupKey_append_some d _ xk inner2 hlk]
        dsimp only
        rw [hsome]
        simp [hx]

lemma nestedUpsert_keysNodup (d : NestedAtlas) (xk yk : String) (v : AtlasEntry)
    (h : atlasKeysNodup d) : atlasKeysNodup (nestedUpsert d xk yk v) := by
  obtain ⟨houter, hinner⟩ := h
  unfold nestedUpsert
  cases hlk : lookupKey d xk with
  | some inner =>
    refine ⟨dictUpsert_keys_nodup d xk _ houter, ?_⟩
    intro p hp
    rcases dictUpsert_mem d xk _ p hp with heq | hmem
    · rw [heq]
      exact dictUpsert_keys_nodup inner yk v
        (hinner (xk, inner) (lookupKey_some_mem d xk inner hlk))
    · exact hinner p hmem
  | none =>
    constructor
    · rw [List.map_append]
      have hk : xk ∉ d.map Prod.fst := (lookupKey_none_iff d xk).mp hlk
      simp [List.nodup_append, houter, hk]
    · intro p hp
      rcases List.mem_append.mp hp with hmem | hmem
      · exact hinner p hmem
      · simp at hmem
        rw [hmem]
        simp

lemma foldl_nestedUpsert_preserves {β : Type} (key1 key2 : β → String)
    (ent : β → AtlasEntry) :
    ∀ (items : List β) (d : NestedAtlas) (xk yk : String) (e : AtlasEntry),
    lookup2 d xk yk = some e →
    ∃ e', lookup2 (items.foldl
        (fun acc f => nestedUpsert acc (key1 f) (key2 f) (ent f)) d) xk yk = some e' ∧
      (e' = e ∨ ∃ f ∈ items, key1 f = xk ∧ key2 f = yk ∧ ent f = e') := by
  intro items
  induction items with
  | nil =>
    intro d xk yk e h
    exact ⟨e, h, Or.inl rfl⟩
  | cons f fs ih =>
    intro d xk yk e h
    rw [List.foldl_cons]
    have hstep := nestedUpsert_preserves d xk yk (key1 f) (key2 f) (ent f) e h
    obtain ⟨e', he', hor⟩ := ih (nestedUpsert d (key1 f) (key2 f) (ent f)) xk yk _ hstep
    refine ⟨e', he', ?_⟩
    rcases hor with heq | ⟨g, hg, h1, h2, h3⟩
    · by_cases hc : xk = key1 f ∧ yk = key2 f
      · rw [if_pos hc] at heq
        exact Or.inr ⟨f, List.mem_cons_self _ _, hc.1.symm, hc.2.symm, heq.symm⟩
      · rw [if_neg hc] at heq
        exact Or.inl heq
    · exact Or.inr ⟨g, List.mem_cons_of_mem _ hg, h1, h2, h3⟩

lemma foldl_nestedUpsert_nodup {β : Type} (key1 key2 : β → String)
    (ent : β → AtlasEntry) :
    ∀ (items : List β) (d : NestedAtlas), atlasKeysNodup d →
    atlasKeysNodup (items.foldl
      (fun acc f => nestedUpsert acc (key1 f) (key2 f) (ent f)) d) := by
  intro items
  induction items with
  | nil => intro d h; exact h
  | cons f fs ih =>
    intro d h
    rw [List.foldl_cons]
    exact ih _ (nestedUpsert_keysNodup d (key1 f) (key2 f) (ent f) h)

lemma sortCatalog_lookup2 (d : NestedAtlas) (h : atlasKeysNodup d) (xk yk : String) :
    lookup2 (sortCatalog d) xk yk = lookup2 d xk yk := by
  have hmapkeys : ((d.map (fun p => (p.1, sortByKey p.2))).map Prod.fst) =
      d.map Prod.fst := by
    rw [List.map_map]
    rfl
  have hperm := sortByKey_perm (d.map (fun p => (p.1, sortByKey p.2)))
  have hnodup : ((sortByKey (d.map (fun p => (p.1, sortByKey p.2)))).map Prod.fst).Nodup := by
    refine (List.Perm.nodup_iff (hperm.map Prod.fst)).mpr ?_
    rw [hmapkeys]
    exact h.1
  have houter : lookupKey (sortCatalog d) xk =
      (lookupKey d xk).map sortByKey := by
    unfold sortCatalog
    rw [lookupKey_perm hperm hnodup xk]
    exact lookupKey_map_values sortByKey d xk
  unfold lookup2
  rw [houter]
  cases hlk : lookupKey d xk with
  | none => rfl
  | some inner =>
    simp only [Option.map_some']
    have hinnernodup : ((sortByKey inner).map Prod.fst).Nodup := by
      refine (List.Perm.nodup_iff ((sortByKey_perm inner).map Prod.fst)).mpr ?_
      exact h.2 (xk, inner) (lookupKey_some_mem d xk inner hlk)
    exact lookupKey_perm (sortByKey_perm inner) hinnernodup yk

lemma sortCatalog_outer (d : NestedAtlas) :
    ((sortCatalog d).map Prod.fst).Pairwise (fun a b => pyStrLt b a = false) := by
  unfold sortCatalog
  rw [List.pairwise_map]
  have h := sortByKey_pairwise (d.map (fun p => (p.1, sortByKey p.2)))
  exact h.imp (fun hk => hk)

lemma sortCatalog_inner (d : NestedAtlas) :
    ∀ p ∈ sortCatalog d, (p.2.map Prod.fst).Pairwise (fun a b => pyStrLt b a = false) := by
  intro p hp
  unfold sortCatalog at hp
  have hp' := (sortByKey_perm _).mem_iff.mp hp
  obtain ⟨q, _, heq⟩ := List.mem_map.mp hp'
  rw [← heq]
  rw [List.pairwise_map]
  have h := sortByKey_pairwise q.2
  exact h.imp (fun hk => hk)

/-- Claim C8 (corrected): both local-atlas update operations (`update_laz_atlas`
and `update_gpkg_atlas`) preserve every tile entry already present — a key pair
that was mapped stays mapped, its entry either unchanged or overwritten by an
incoming item at the same origin, never removed — and the catalog they write has
its coordinate keys at both levels sorted ascending as *strings*
(`sorted(data.keys())` on string keys), not as integers as the claim states. -/
theorem c8_atlas_update (old : NestedAtlas) (files : List LazFile)
    (missing : List (String × Int × Int)) (hnodup : atlasKeysNodup old) :
    (∀ xk yk e, lookup2 old xk yk = some e → ∃ e',
        lookup2 (update_laz_atlas_data old files) xk yk = some e' ∧
        (e' = e ∨ ∃ f ∈ files, strEndsWithB f.filename ".laz" = true ∧
          toString f.min_x = xk ∧ toString f.min_y = yk ∧
          e' = ⟨f.max_y - f.min_y, f.max_x - f.min_x, f.filename⟩)) ∧
    ((update_laz_atlas_data old files).map Prod.fst).Pairwise
      (fun a b => pyStrLt b a = false) ∧
    (∀ p ∈ update_laz_atlas_data old files,
      (p.2.map Prod.fst).Pairwise (fun a b => pyStrLt b a = false)) ∧
    (∀ xk yk e, lookup2 old xk yk = some e → ∃ e',
        lookup2 (update_gpkg_atlas_data old missing) xk yk = some e' ∧
        (e' = e ∨ ∃ it ∈ missing, toString it.2.1 = xk ∧ toString it.2.2 = yk ∧
          e' = ⟨10000, 10000, it.1⟩)) ∧
    ((update_gpkg_atlas_data old missing).map Prod.fst).Pairwise
      (fun a b => pyStrLt b a = false) ∧
    (∀ p ∈ update_gpkg_atlas_data old missing,
      (p.2.map Prod.fst).Pairwise (fun a b => pyStrLt b a = false)) := by
  refine ⟨?_, ?_, ?_, ?_, ?_, ?_⟩
  · intro xk yk e h
    unfold update_laz_atlas_data
    have hnod2 := foldl_nestedUpsert_nodup (fun f => toString f.min_x)
      (fun f => toString f.min_y)
      (fun f => (⟨f.max_y - f.min_y, f.max_x - f.min_x, f.filename⟩ : AtlasEntry))
      (files.filter (fun f => strEndsWithB f.filename ".laz")) old hnodup
    rw [sortCatalog_lookup2 _ hnod2]
    obtain ⟨e', he', hor⟩ := foldl_nestedUpsert_preserves (fun f => toString f.min_x)
      (fun f => toString f.min_y)
      (fun f => (⟨f.max_y - f.min_y, f.max_x - f.min_x, f.filename⟩ : AtlasEntry))
      (files.filter (fun f => strEndsWithB f.filename ".laz")) old xk yk e h
    refine ⟨e', he', ?_⟩
    rcases hor with heq | ⟨f, hf, h1, h2, h3⟩
    · exact Or.inl heq
    · obtain ⟨hfmem, hlaz⟩ := List.mem_filter.mp hf
      exact Or.inr ⟨f, hfmem, hlaz, h1, h2, h3.symm⟩
  · unfold update_laz_atlas_data
    exact sortCatalog_outer _
  · unfold update_laz_atlas_data
    exact sortCatalog_inner _
  · intro xk yk e h
    unfold update_gpkg_atlas_data
    have hnod2 := foldl_nestedUpsert_nodup (fun it => toString it.2.1)
      (fun it => toString it.2.2)
      (fun it => (⟨10000, 10000, it.1⟩ : AtlasEntry)) missing old hnodup
    rw [sortCatalog_lookup2 _ hnod2]
    obtain ⟨e', he', hor⟩ := foldl_nestedUpsert_preserves (fun it => toString it.2.1)
      (fun it => toString it.2.2)
      (fun it => (⟨10000, 10000, it.1⟩ : AtlasEntry)) missing old xk yk e h
    refine ⟨e', he', ?_⟩
    rcases hor with heq | ⟨it, hit, h1, h2, h3⟩
    · exact Or.inl heq
    · exact Or.inr ⟨it, hit, h1, h2, h3.symm⟩
  · unfold update_gpkg_atlas_data
    exact sortCatalog_outer _
  · unfold update_gpkg_atlas_data
    exact sortCatalog_inner _

/-- Claim C8 counterexample: the atlas with x-keys "9" and "10", rewritten by
the LAZ update with no new files, comes out with outer keys in the string order
"10" before "9" — as integers the key sequence is [10, 9], which is not
ascending; the claim's `sorted ascending as integers` fails. -/
theorem c8_counterexample :
    (update_laz_atlas_data c8Atlas []).map (fun p => strKeyToInt p.1) = [10, 9] ∧
    ¬ ((update_laz_atlas_data c8Atlas []).map (fun p => strKeyToInt p.1)).Pairwise
      (fun a b => a ≤ b) := by
  decide

/-- Witness for c8_atlas_update: at the concrete atlas c8Atlas (keys without
duplicates) with one incoming `.laz` file at origin (2500, 0), the entry stored
under keys "9"/"0" survives the update. -/
theorem c8_atlas_update_witness :
    ∃ e', lookup2 (update_laz_atlas_data c8Atlas [⟨"n.laz", 2500, 0, 5000, 2500⟩])
        "9" "0" = some e' ∧
      (e' = ⟨2500, 2500, "a.laz"⟩ ∨
        ∃ f ∈ [(⟨"n.laz", 2500, 0, 5000, 2500⟩ : LazFile)],
          strEndsWithB f.filename ".laz" = true ∧
          toString f.min_x = "9" ∧ toString f.min_y = "0" ∧
          e' = ⟨f.max_y - f.min_y, f.max_x - f.min_x, f.filename⟩) :=
  (c8_atlas_update c8Atlas [⟨"n.laz", 2500, 0, 5000, 2500⟩] []
    (by constructor <;> decide)).1 "9" "0" ⟨2500, 2500, "a.laz"⟩ (by decide)
